import Mathlib

/-!
A shallow embedding of the Partners8 ETL pipeline core, translated from
`src/backend/scrape.py` (the variant with state checkpointing; `src/main.py`
is a near-duplicate whose differences are noted where they matter), together
with theorems settling the frozen specification claims.

Network traffic, the wall clock and the filesystem are modelled as
deterministic oracles; machine floats over the data columns are modelled as
`Option ℚ` (`none` for `pd.NA`/`NaN`), with a dedicated type `PFloat` where a
signed infinity can occur.  Operations that can raise in Python return
`Option`/`Except` values here.
-/

namespace Partners8

/-! ## Fuzzy string similarity (external `fuzzywuzzy` dependency) -/

/-- Longest-common-subsequence length of two character lists, with an explicit
fuel argument so that the recursion is structural and kernel-reducible; fuel
`a.length + b.length` always suffices. -/
def lcsAux (fuel : Nat) (a b : List Char) : Nat :=
  match fuel, a, b with
  | 0, _, _ => 0
  | _ + 1, [], _ => 0
  | _ + 1, _ :: _, [] => 0
  | fuel + 1, x :: xs, y :: ys =>
    if x = y then lcsAux fuel xs ys + 1
    else max (lcsAux fuel (x :: xs) ys) (lcsAux fuel xs (y :: ys))

def lcsLen (a b : List Char) : Nat := lcsAux (a.length + b.length) a b

/-- Model of `fuzz.ratio` from the external fuzzywuzzy library (not part of
this repository): the normalised indel similarity
`round (200 * lcs (a, b) / (length a + length b))` on a 0..100 scale, 100 for
two empty strings.  Python rounds half to even where this model rounds half
up; every concrete score computed in this development is away from a `.5`
tie, where the two conventions agree.  The pipeline definitions below take
the scoring function as a parameter, and this concrete model is used for
witnesses and counterexamples. -/
def fuzzRatio (a b : String) : Nat :=
  let t := a.data.length + b.data.length
  if t = 0 then 100
  else (400 * lcsLen a.data b.data + t) / (2 * t)

/-! ## String normalisation helpers

The Python text operations are implemented character-wise (over `String.data`)
so that every definition is kernel-reducible; on the ASCII data these
functions handle, they agree with the corresponding Python methods. -/

/-- Python `str.strip()`: drop leading and trailing whitespace. -/
def trimChars (l : List Char) : List Char :=
  ((l.dropWhile Char.isWhitespace).reverse.dropWhile Char.isWhitespace).reverse

def trimStr (s : String) : String := ⟨trimChars s.data⟩

/-- Python `str.lower()` (ASCII). -/
def toLowerStr (s : String) : String := ⟨s.data.map Char.toLower⟩

/-- Python `str.upper()` (ASCII). -/
def toUpperStr (s : String) : String := ⟨s.data.map Char.toUpper⟩

/-- Splitting into maximal whitespace-free runs (helper for `str.split()`). -/
def splitWsAux (l : List Char) (cur : List Char) : List (List Char) :=
  match l with
  | [] => [cur.reverse]
  | c :: cs =>
    if c.isWhitespace then cur.reverse :: splitWsAux cs []
    else splitWsAux cs (c :: cur)

/-- Python `str.split()` with no separator: split on whitespace runs and drop
empty pieces. -/
def pySplitWs (l : List Char) : List (List Char) :=
  (splitWsAux l []).filter (fun t => !t.isEmpty)

/-- Python `str.endswith`. -/
def endsWithStr (s suf : String) : Bool := suf.data.isSuffixOf s.data

/-- Python slicing `s[:-n]` for `0 < n ≤ len s`: drop the last `n`
characters. -/
def dropRightStr (s : String) (n : Nat) : String := ⟨s.data.take (s.data.length - n)⟩

/-- Python `str.replace` on character lists: scan left to right, replace every
non-overlapping occurrence of `pat`, and continue after the inserted
replacement.  The fuel (the length of the scanned list) makes the recursion
structural; it suffices because each step consumes at least one character
of a non-empty pattern. -/
def replaceAux (pat rep : List Char) (fuel : Nat) (l : List Char) : List Char :=
  match fuel, l with
  | 0, l => l
  | _, [] => []
  | fuel + 1, c :: cs =>
    if pat.isPrefixOf (c :: cs) then rep ++ replaceAux pat rep fuel ((c :: cs).drop pat.length)
    else c :: replaceAux pat rep fuel cs

/-- Python `str.replace` (the patterns used by the pipeline are non-empty,
so the empty-pattern corner of Python is irrelevant and mapped to the
identity). -/
def replaceStr (s pat rep : String) : String :=
  if pat.data.isEmpty then s
  else ⟨replaceAux pat.data rep.data s.data.length s.data⟩

/-- Normalisation of the queried county name in `get_fips_code`:
`' '.join(county_name.strip().split()).lower()`. -/
def normalizeQueryCounty (s : String) : String :=
  toLowerStr ⟨List.intercalate [' '] (pySplitWs (trimChars s.data))⟩

/-- Normalisation of a directory candidate name in `get_fips_code`:
`area.get('cntyname', '').strip().lower()` (the `.get` default folds a
missing key into the empty string). -/
def normalizeApiCounty (s : String) : String := toLowerStr (trimStr s)

/-- The suffixes stripped by `NARDataExtractor.normalize_county_name`, in
source order; only the first matching suffix is removed. -/
def countySuffixes : List String :=
  [" county", " parish", " borough", " census area", " city and borough"]

def stripFirstSuffix (sufs : List String) (s : String) : String :=
  match sufs with
  | [] => s
  | suf :: rest =>
    if endsWithStr s suf then dropRightStr s suf.data.length else stripFirstSuffix rest s

/-- The abbreviation substitutions of `normalize_county_name`, applied in
insertion order, each replacing every occurrence. -/
def countyReplacements : List (String × String) :=
  [("st.", "saint"), ("st ", "saint "), ("ste.", "sainte"), ("ste ", "sainte ")]

def applyReplacements (reps : List (String × String)) (s : String) : String :=
  match reps with
  | [] => s
  | (a, b) :: rest => applyReplacements rest (replaceStr s a b)

/-- `NARDataExtractor.normalize_county_name`: strip and lower-case, remove the
first matching suffix, apply the abbreviation substitutions, strip again.
The `pd.isna` branch maps a missing name to `""`; rows are modelled with
plain strings, for which that branch is never taken. -/
def normalizeCountyName (name : String) : String :=
  trimStr (applyReplacements countyReplacements
    (stripFirstSuffix countySuffixes (toLowerStr (trimStr name))))

/-- The fixed state-abbreviation table of `NARDataExtractor`. -/
def stateMapping : List (String × String) :=
  [("AL", "Alabama"), ("AK", "Alaska"), ("AZ", "Arizona"), ("AR", "Arkansas"),
   ("CA", "California"), ("CO", "Colorado"), ("CT", "Connecticut"), ("DE", "Delaware"),
   ("FL", "Florida"), ("GA", "Georgia"), ("HI", "Hawaii"), ("ID", "Idaho"),
   ("IL", "Illinois"), ("IN", "Indiana"), ("IA", "Iowa"), ("KS", "Kansas"),
   ("KY", "Kentucky"), ("LA", "Louisiana"), ("ME", "Maine"), ("MD", "Maryland"),
   ("MA", "Massachusetts"), ("MI", "Michigan"), ("MN", "Minnesota"), ("MS", "Mississippi"),
   ("MO", "Missouri"), ("MT", "Montana"), ("NE", "Nebraska"), ("NV", "Nevada"),
   ("NH", "New Hampshire"), ("NJ", "New Jersey"), ("NM", "New Mexico"), ("NY", "New York"),
   ("NC", "North Carolina"), ("ND", "North Dakota"), ("OH", "Ohio"), ("OK", "Oklahoma"),
   ("OR", "Oregon"), ("PA", "Pennsylvania"), ("RI", "Rhode Island"), ("SC", "South Carolina"),
   ("SD", "South Dakota"), ("TN", "Tennessee"), ("TX", "Texas"), ("UT", "Utah"),
   ("VT", "Vermont"), ("VA", "Virginia"), ("WA", "Washington"), ("WV", "West Virginia"),
   ("WI", "Wisconsin"), ("WY", "Wyoming"), ("DC", "District of Columbia")]

/-- `NARDataExtractor.normalize_state_name`: the stripped, upper-cased
abbreviation looked up in the fixed table, unknown codes passing through
unchanged. -/
def normalizeStateName (ab : String) : String :=
  let s := toUpperStr (trimStr ab)
  match stateMapping.find? (fun p => p.1 == s) with
  | some p => p.2
  | none => s

/-! ## Geocode resolver (`get_fips_code`) -/

/-- One entry of the HUD county directory for a state.  `cntyname` models
`area.get('cntyname', '')` with the default already applied; `fips_code`
models `area.get('fips_code')`, which is `None` when the key is absent. -/
structure Area where
  cntyname : String
  fips_code : Option String
deriving DecidableEq

/-- Shape of the parsed directory JSON in `get_fips_code`: an object (counties
read from its `data` field, defaulting to `[]`), a bare array, or any other
shape, which makes the function return `None`. -/
inductive DirResp where
  | dict (data : List Area)
  | arr (data : List Area)
  | other
deriving DecidableEq

/-- The candidate loop of `get_fips_code`: candidates are visited in directory
order, and for each one first an exact match of the normalised names and
then a similarity score strictly above 75 is tested; the first hit ends the
loop with that candidate's `fips_code` field. -/
def findFips (ratio : String → String → Nat) (q : String) (l : List Area) : Option String :=
  match l with
  | [] => none
  | a :: rest =>
    let apiName := normalizeApiCounty a.cntyname
    if apiName = q then a.fips_code
    else if ratio apiName q > 75 then a.fips_code
    else findFips ratio q rest

/-- `get_fips_code`, taken at the point where the per-state directory request
has been issued.  The fetch outcome is the oracle value `fetched`: `none`
when `rate_limited_request` returned `None`, `some (.error ())` when reading
or parsing the body raised (the surrounding `try` turns that into `None`),
and `some (.ok resp)` for a parsed body.  The process-wide FIPS cache and
the stop-flag check sit in front of this code and are transparent for a
fixed oracle; the claims about the resolver quantify over calls that reach
the fetched directory. -/
def getFipsCode (ratio : String → String → Nat)
    (fetched : Option (Except Unit DirResp)) (countyName : String) : Option String :=
  match fetched with
  | none => none
  | some (.error _) => none
  | some (.ok (.dict l)) => findFips ratio (normalizeQueryCounty countyName) l
  | some (.ok (.arr l)) => findFips ratio (normalizeQueryCounty countyName) l
  | some (.ok .other) => none

/-- Amended matching policy of claim C1, stated in the spec's vocabulary: the
first candidate, in directory order, whose normalised name either equals the
normalised query or scores strictly above 75 wins — exact and fuzzy are
tested per candidate in a single pass, so an earlier fuzzy hit can pre-empt
a later exact hit; the result is that candidate's `fips_code`. -/
def fipsFirstMatch (ratio : String → String → Nat) (q : String) (l : List Area) : Option String :=
  (l.find? (fun a =>
    normalizeApiCounty a.cntyname == q
      || decide (ratio (normalizeApiCounty a.cntyname) q > 75))).bind Area.fips_code

/-- The first exactly-matching candidate of a directory, used to state claim
C1 (whose policy is that an exact match, when one exists, decides the
result). -/
def firstExact (q : String) (l : List Area) : Option Area :=
  l.find? (fun a => normalizeApiCounty a.cntyname == q)

/-! ## Rate-limited fetch client (`create_session` + `rate_limited_request`) -/

/-- Outcome of one wire-level HTTP request (one request actually put on the
socket): a status line, or a connection-level failure.  This is the oracle
the transport layer consumes; `session.get` is NOT this — it sits behind
the `urllib3 Retry` adapter mounted by `create_session` and is modelled by
`sessionGet` below. -/
inductive WireOut where
  | status (code : Nat)
  | connErr
deriving DecidableEq

/-- `status_forcelist` of the `Retry` strategy in `create_session`. -/
def retryStatuses : List Nat := [429, 500, 502, 503, 504]

/-- `urllib3 Retry.get_backoff_time` with `backoff_factor = 1`, as a function
of the number of retries recorded so far (`r` = length of the retry
history): zero before the first retry, `2 ^ (r - 1)` seconds before the
later ones — 0, 2, 4 for `total = 3`.  (A `Retry-After` header would take
precedence; the oracle carries no headers.) -/
def urlBackoff (r : Nat) : ℚ := if r ≤ 1 then 0 else (2 : ℚ) ^ (r - 1)

/-- What `session.get` hands back to `rate_limited_request`: a response
object with its status code, or a raised `requests` exception
(`RetryError` on retry exhaustion, `ConnectionError`, ...). -/
inductive GetOut where
  | resp (code : Nat)
  | raised
deriving DecidableEq

/-- The retry loop of the `HTTPAdapter(max_retries = Retry(total = 3,
backoff_factor = 1, status_forcelist = [429, 500, 502, 503, 504]))`
mounted by `create_session`, over the remaining request slots (`total = 3`
retries allow four wire requests).  A response whose status is in the
forcelist consumes a retry and sleeps the backoff; when no retry is left
the adapter raises (`raise_on_status` defaults to true, so the exhausted
status is never returned).  A connection-level error consumes a retry the
same way.  Any other status is returned at once.  Arguments: remaining
request slots (each labelled with its 0-based request index), next wire
index, sleeps so far; result: outcome, next unread wire index, the
chronological backoff sleeps. -/
def sessionGetAux (net : Nat → WireOut) : List Nat → Nat → List ℚ → GetOut × Nat × List ℚ
  | [], i, acc => (.raised, i, acc)
  | r :: rs, i, acc =>
    match net i with
    | .status c =>
      if retryStatuses.contains c then
        match rs with
        | [] => (.raised, i + 1, acc)
        | _ :: _ => sessionGetAux net rs (i + 1) (acc ++ [urlBackoff (r + 1)])
      else (.resp c, i + 1, acc)
    | .connErr =>
      match rs with
      | [] => (.raised, i + 1, acc)
      | _ :: _ => sessionGetAux net rs (i + 1) (acc ++ [urlBackoff (r + 1)])

/-- One `session.get` call of `rate_limited_request`, starting at wire
index `i`. -/
def sessionGet (net : Nat → WireOut) (i : Nat) : GetOut × Nat × List ℚ :=
  sessionGetAux net [0, 1, 2, 3] i []

/-- The manual retry loop of `rate_limited_request` over the remaining
attempt indices, threading the next wire index.  A 200 response is
returned (the first component is the wire index of the returned
response); a 429 response would sleep `2 ^ attempt + jitter attempt` and
retry — unreachable, since `sessionGet` never returns a 429; any other
status returns `None`; a raised `RequestException` sleeps `2 ^ attempt`
when a manual attempt is left and retries.  `cont n` is the value of
`controller.check_should_continue()` at the n-th check of the call; the
inter-request throttle sleep depends on wall-clock time and is not
modelled. -/
def rlLoop (cont : Nat → Bool) (net : Nat → WireOut) (jitter : Nat → ℚ)
    (maxRetries : Nat) (attempts : List Nat) (i : Nat) (acc : List ℚ) :
    Option Nat × List ℚ :=
  match attempts with
  | [] => (none, acc)
  | attempt :: rest =>
    if ¬ cont (attempt + 1) then (none, acc)
    else
      match sessionGet net i with
      | (.resp code, i2, sleeps) =>
        if code == 200 then (some (i2 - 1), acc ++ sleeps)
        else if code == 429 then
          rlLoop cont net jitter maxRetries rest i2
            (acc ++ sleeps ++ [(2 : ℚ) ^ attempt + jitter attempt])
        else (none, acc ++ sleeps)
      | (.raised, i2, sleeps) =>
        if attempt < maxRetries - 1 then
          rlLoop cont net jitter maxRetries rest i2 (acc ++ sleeps ++ [(2 : ℚ) ^ attempt])
        else rlLoop cont net jitter maxRetries rest i2 (acc ++ sleeps)

/-- `rate_limited_request` (scrape.py variant, which also samples the stop
flag before and during the loop): at most `maxRetries` manual attempts
(default 3), each one a `sessionGet` through the transport retry layer.
The first component is the wire index of the returned 200 response
(`none` when no response is returned); the second the chronological list
of all sleeps performed (transport backoffs and manual `2 ^ attempt`
exception backoffs). -/
def rateLimitedRequest (cont : Nat → Bool) (net : Nat → WireOut) (jitter : Nat → ℚ)
    (maxRetries : Nat) : Option Nat × List ℚ :=
  if ¬ cont 0 then (none, [])
  else rlLoop cont net jitter maxRetries (List.range maxRetries) 0 []

/-! ## WorkingDataset rows -/

/-- Pandas-style float cell for the four ratio columns: missing (NaN), finite,
or a signed infinity — what bare float division can produce before the
`np.isinf` clean-up. -/
inductive PFloat where
  | na
  | fin (q : ℚ)
  | pinf
  | ninf
deriving DecidableEq

/-- One row of the WorkingDataset (`final_data`).  The identity columns not
read by any modelled stage (`Region`, `SizeRank`, `RegionName`) are carried
untouched by every stage and omitted here; numeric cells are `Option ℚ`
with `none` for `pd.NA`/`NaN`. -/
structure Row where
  state : String
  county : String
  city : String
  zRent : Option ℚ
  zValue : Option ℚ
  nMedium : Option ℚ
  entityid : Option String
  il : Option ℚ
  eff : Option ℚ
  oneBr : Option ℚ
  twoBr : Option ℚ
  threeBr : Option ℚ
  fourBr : Option ℚ
  zRatio : PFloat
  nRatio : PFloat
  zhRatio : PFloat
  nhRatio : PFloat
deriving DecidableEq

/-! ## HUD fetchers and the per-row enrichment worker -/

/-- Python `float(x.get(key, pd.NA))` on a JSON field: `none` (key absent, so
`float(pd.NA)` raises) and `some none` (present but not convertible, so
`float` raises) both end in the enclosing `except` branch; `some (some q)`
converts to the value `q`. -/
def floatOfField (f : Option (Option ℚ)) : Option ℚ :=
  match f with
  | some (some q) => some q
  | _ => none

/-- The `basicdata` object of a Fair-Market-Rent response, after the MSA-level
list normalisation of `get_fmr_data`: the five bedroom-size figures as
optional JSON fields (outer `none` = key absent, inner `none` = present but
not convertible by `float`). -/
structure FmrFields where
  efficiency : Option (Option ℚ)
  oneBr : Option (Option ℚ)
  twoBr : Option (Option ℚ)
  threeBr : Option (Option ℚ)
  fourBr : Option (Option ℚ)
deriving DecidableEq

/-- The dictionary returned by a successful `get_fmr_data` call. -/
structure FmrData where
  efficiency : ℚ
  oneBr : ℚ
  twoBr : ℚ
  threeBr : ℚ
  fourBr : ℚ
deriving DecidableEq

/-- `get_fmr_data`: `None` for a failed request or a raised body read (both
caught by the function's `try`), or when any of the five `float`
conversions raises; otherwise all five figures together. -/
def getFmrData (resp : Option (Except Unit FmrFields)) : Option FmrData :=
  match resp with
  | none => none
  | some (.error _) => none
  | some (.ok f) =>
    match floatOfField f.efficiency, floatOfField f.oneBr, floatOfField f.twoBr,
        floatOfField f.threeBr, floatOfField f.fourBr with
    | some a, some b, some c, some d, some e => some ⟨a, b, c, d, e⟩
    | _, _, _, _, _ => none

/-- `get_income_limits`: the payload is `data.very_low.il50_p4` as an optional
JSON field; a missing or non-convertible field raises inside `float` and is
caught, giving `None`. -/
def getIncomeLimits (resp : Option (Except Unit (Option (Option ℚ)))) : Option ℚ :=
  match resp with
  | none => none
  | some (.error _) => none
  | some (.ok f) => floatOfField f

/-- Deterministic network-layer oracle for the three HUD endpoints of one run:
the directory listing per state code, and the FMR and income-limit payloads
per entity id.  `Except.error` marks a response whose body read or parse
raised (always caught inside the fetcher in question). -/
structure HudOracle where
  dir : String → Option (Except Unit DirResp)
  fmr : String → Option (Except Unit FmrFields)
  il : String → Option (Except Unit (Option (Option ℚ)))

/-- The per-row result dictionary built by `process_hud_row`. -/
structure HudResult where
  index : Nat
  entityid : Option String
  il : Option ℚ
  eff : Option ℚ
  oneBr : Option ℚ
  twoBr : Option ℚ
  threeBr : Option ℚ
  fourBr : Option ℚ
deriving DecidableEq

/-- The initial all-null result dictionary of `process_hud_row`. -/
def allNA (i : Nat) : HudResult := ⟨i, none, none, none, none, none, none, none⟩

/-- `process_hud_row` (scrape.py variant).  `cont n` is the n-th
`controller.check_should_continue()` sample of the call; the function
returns `None` when stopped at entry and otherwise the result dictionary,
filling fields only behind the Python truthiness guards of the source
(`if fips_code and ...`, `if fmr_data and ...`, `if income_limit and ...`;
an empty-string FIPS code and a `0.0` income limit are falsy). -/
def processHudRow (cont : Nat → Bool) (ratio : String → String → Nat) (o : HudOracle)
    (index : Nat) (row : Row) : Option HudResult :=
  if ¬ cont 0 then none
  else
    let base := allNA index
    match getFipsCode ratio (o.dir row.state) row.county with
    | some f =>
      if f ≠ "" ∧ cont 1 then
        let r1 := { base with entityid := some f }
        let r2 :=
          match getFmrData (o.fmr f) with
          | some fd =>
            if cont 2 then
              { r1 with eff := some fd.efficiency, oneBr := some fd.oneBr,
                        twoBr := some fd.twoBr, threeBr := some fd.threeBr,
                        fourBr := some fd.fourBr }
            else r1
          | none => r1
        let r3 :=
          match getIncomeLimits (o.il f) with
          | some v => if v ≠ 0 ∧ cont 3 then { r2 with il := some v } else r2
          | none => r2
        some r3
      else some base
    | none => some base

/-- Closed form of `process_hud_row` when the stop flag stays unset: the
entity id is filled when the resolver returns a truthy (non-empty) id, the
five rents exactly when the FMR fetch succeeded, the income limit exactly
when the fetched value is truthy (non-null and non-zero).  Proved equal to
`processHudRow (fun _ => true)` below. -/
def hudRowResult (ratio : String → String → Nat) (o : HudOracle) (index : Nat)
    (row : Row) : HudResult :=
  match getFipsCode ratio (o.dir row.state) row.county with
  | some f =>
    if f ≠ "" then
      { index := index
        entityid := some f
        il := match getIncomeLimits (o.il f) with
              | some v => if v ≠ 0 then some v else none
              | none => none
        eff := (getFmrData (o.fmr f)).map FmrData.efficiency
        oneBr := (getFmrData (o.fmr f)).map FmrData.oneBr
        twoBr := (getFmrData (o.fmr f)).map FmrData.twoBr
        threeBr := (getFmrData (o.fmr f)).map FmrData.threeBr
        fourBr := (getFmrData (o.fmr f)).map FmrData.fourBr }
    else allNA index
  | none => allNA index

/-- The row-level invariant of claim C5: a row without a resolved entity id
carries no government metric. -/
def rowEntityNullInv (r : Row) : Prop :=
  r.entityid = none → r.il = none ∧ r.eff = none ∧ r.oneBr = none ∧ r.twoBr = none
    ∧ r.threeBr = none ∧ r.fourBr = none

/-- The result-level invariant of claim C5 for one enrichment result. -/
def hudResEntityNullInv (res : HudResult) : Prop :=
  res.entityid = none → res.il = none ∧ res.eff = none ∧ res.oneBr = none
    ∧ res.twoBr = none ∧ res.threeBr = none ∧ res.fourBr = none

/-! ## Ratio calculator -/

/-- Pandas float division of two numeric cells: a missing operand propagates,
a zero denominator gives a signed infinity (NaN for `0 / 0`) exactly as
IEEE-754 division does inside pandas, and division never raises. -/
def pdDiv (a b : Option ℚ) : PFloat :=
  match a, b with
  | none, _ => .na
  | _, none => .na
  | some x, some y =>
    if y = 0 then
      if x > 0 then .pinf else if x < 0 then .ninf else .na
    else .fin (x / y)

/-- The `np.isinf` clean-up of `calculate_all_ratios`: infinities become NaN,
everything else is kept. -/
def cleanInf (x : PFloat) : PFloat :=
  match x with
  | .pinf => .na
  | .ninf => .na
  | y => y

/-- `RatioCalculator.calculate_all_ratios` on one row.  The `pd.to_numeric`
coercion is the identity on cells already modelled as numeric-or-missing;
each ratio column is the bare division followed by the infinity clean-up. -/
def calculateAllRatios (r : Row) : Row :=
  { r with
    zRatio := cleanInf (pdDiv r.zRent r.zValue)
    nRatio := cleanInf (pdDiv r.zRent r.nMedium)
    zhRatio := cleanInf (pdDiv r.fourBr r.zValue)
    nhRatio := cleanInf (pdDiv r.fourBr r.nMedium) }

/-! ## County-name matcher (`match_nar_data`) -/

/-- A cleaned census row from `get_census_county_data`, after the regex
extraction and `dropna`. -/
structure CensusRaw where
  county : String
  state : String
  value : ℚ
deriving DecidableEq

/-- A census row with the two matching keys prepared as in `match_nar_data`:
`county_clean` via `normalize_county_name` and `state_clean` via
`str.strip`. -/
structure CEntry where
  countyClean : String
  stateClean : String
  value : ℚ
deriving DecidableEq

def prepCensus (c : CensusRaw) : CEntry :=
  ⟨normalizeCountyName c.county, trimStr c.state, c.value⟩

/-- The `census_lookup` dict of `match_nar_data`: insertion overwrites, so a
lookup returns the value of the last census row carrying the key. -/
def lookupCensus (census : List CEntry) (county state : String) : Option ℚ :=
  ((census.filter (fun c => c.countyClean == county && c.stateClean == state)).getLast?).map
    CEntry.value

/-- The fuzzy-scan loop of `match_nar_data`: candidates are scanned in order
and one replaces the running best exactly when its score is strictly above
both the running best score and 80. -/
def foldBest (ratio : String → String → Nat) (q : String)
    (l : List CEntry) (s : Nat) (best : Option CEntry) : Nat × Option CEntry :=
  match l with
  | [] => (s, best)
  | c :: rest =>
    let sim := ratio q c.countyClean
    if sim > s ∧ sim > 80 then foldBest ratio q rest sim (some c)
    else foldBest ratio q rest s best

/-- One row of `match_nar_data` after key preparation: exact lookup first,
then the fuzzy scan restricted to census rows of the same normalised
state. -/
def matchNarRow (ratio : String → String → Nat) (census : List CEntry)
    (countyClean stateFull : String) : Option ℚ :=
  match lookupCensus census countyClean stateFull with
  | some v => some v
  | none =>
    let stateData := census.filter (fun c => c.stateClean == stateFull)
    if stateData.isEmpty then none
    else ((foldBest ratio countyClean stateData 0 none).2).map CEntry.value

/-- The NAR value assigned to one WorkingDataset row, with the row keys
normalised as in `match_nar_data` (`normalize_county_name` on the county,
`normalize_state_name` on the state code). -/
def narRowValue (ratio : String → String → Nat) (census : List CEntry) (r : Row) : Option ℚ :=
  matchNarRow ratio census (normalizeCountyName r.county) (normalizeStateName r.state)

/-- `match_nar_data` over the whole table: `NMediumValue` is reset to `pd.NA`
and refilled row by row; the `matches` counter increments exactly on the
rows that received a value, so it equals the number of such rows. -/
def matchNarData (ratio : String → String → Nat) (d : List Row)
    (censusRaw : List CensusRaw) : List Row × Nat :=
  let census := censusRaw.map prepCensus
  let rows := d.map (fun r => { r with nMedium := narRowValue ratio census r })
  (rows, rows.countP (fun r => r.nMedium.isSome))

/-! ## Stage 3 batching and the checkpointed orchestrator -/

/-- List chunking with an explicit fuel argument (structural, so
kernel-reducible); `chunks k l` splits `l` into consecutive pieces of size
`k`. -/
def chunksAux (k : Nat) (fuel : Nat) (l : List α) : List (List α) :=
  match fuel, l with
  | 0, _ => []
  | _, [] => []
  | fuel + 1, l => l.take k :: chunksAux k fuel (l.drop k)

def chunks (k : Nat) (l : List α) : List (List α) := chunksAux k l.length l

/-- Replace the i-th element of a list by `f` of it. -/
def updateAt (i : Nat) (f : α → α) (l : List α) : List α :=
  match l, i with
  | [], _ => []
  | x :: xs, 0 => f x :: xs
  | x :: xs, j + 1 => x :: updateAt j f xs

/-- The write-back of one result dictionary into the dataset: all seven
enrichment columns of the row at `result['index']` are assigned from the
result. -/
def applyHudResult (res : HudResult) (r : Row) : Row :=
  { r with entityid := res.entityid, il := res.il, eff := res.eff, oneBr := res.oneBr,
           twoBr := res.twoBr, threeBr := res.threeBr, fourBr := res.fourBr }

/-- The guarded write-back (`if result: ...`) of one collected result. -/
def writeResult (d : List Row) (res : Option HudResult) : List Row :=
  match res with
  | some r => updateAt r.index (applyHudResult r) d
  | none => d

/-- The batch loop of `step3_fetch_hud_data`: row indices are processed in
fixed-size batches, and each batch's collected results are written back
before the next batch starts.  `stopBatch = some b` models the cooperative
stop flag becoming true while batch `b` is in flight: the write-back guard
(`if result and controller.check_should_continue()`) then discards every
collected result of batch `b`, and batches after `b` never start.  With
`stopBatch = none` every batch is applied. -/
def step3Batched (enrich : Nat → Option HudResult) (batchSize : Nat)
    (stopBatch : Option Nat) (d : List Row) : List Row :=
  let batches := chunks batchSize (List.range d.length)
  let used :=
    match stopBatch with
    | none => batches
    | some b => batches.take b
  used.foldl (fun acc batch => batch.foldl (fun a i => writeResult a (enrich i)) acc) d

/-- A merged ZHVI/ZORI row as produced by Stage 2 before the enrichment
columns are initialised. -/
structure BulkRow where
  state : String
  county : String
  city : String
  zRent : Option ℚ
  zValue : Option ℚ
deriving DecidableEq

/-- Stage 2 initialises every non-bulk column of a fresh row to `pd.NA`. -/
def initRow (b : BulkRow) : Row :=
  { state := b.state, county := b.county, city := b.city, zRent := b.zRent,
    zValue := b.zValue, nMedium := none, entityid := none, il := none, eff := none,
    oneBr := none, twoBr := none, threeBr := none, fourBr := none,
    zRatio := .na, nRatio := .na, zhRatio := .na, nhRatio := .na }

/-- In-memory pipeline state: the working dataset, the two cached bulk tables
(of an abstract table type `α`), and `controller.current_step` (set by
`set_current_step` at the entry of every stage). -/
structure PState (α : Type) where
  finalData : Option (List Row)
  zhvi : Option α
  zori : Option α
  currentStep : Nat
deriving DecidableEq

/-- The pickled checkpoint written by `StateManager.save_state`: the fields of
the in-memory state that the pipeline reads back (the timestamp and the two
unused progress dictionaries are dropped). -/
structure Checkpoint (α : Type) where
  currentStep : Nat
  finalData : Option (List Row)
  zhvi : Option α
  zori : Option α
deriving DecidableEq

/-- `save_current_state`: what `StateManager.save_state` records. -/
def toCheckpoint (s : PState α) : Checkpoint α :=
  ⟨s.currentStep, s.finalData, s.zhvi, s.zori⟩

/-- `load_previous_state`: the restored in-memory state of a fresh process
(fresh controller, so `current_step` restarts at 0) carrying the
checkpointed dataset and bulk tables; the caller then runs with
`resume_from_step := checkpoint.current_step`. -/
def resumeInit (c : Checkpoint α) : PState α :=
  ⟨c.finalData, c.zhvi, c.zori, 0⟩

/-- The state of a freshly constructed `Partners8Pipeline`. -/
def pipelineInit : PState α := ⟨none, none, none, 0⟩

/-- Deterministic oracle for one full run: everything the pipeline reads from
the network, with the two bulk tables abstract and the Stage-2 merge an
abstract function of them. -/
structure Oracle (α : Type) where
  download : Option (α × α)
  merge : α → α → List BulkRow
  ratio : String → String → Nat
  hud : HudOracle
  census : Option (List CensusRaw)

def entityCount (d : List Row) : Nat := d.countP (fun r => r.entityid.isSome)

def nMediumCount (d : List Row) : Nat := d.countP (fun r => r.nMedium.isSome)

/-- The per-index enrichment outcomes Stage 3 collects from its worker pool,
for a dataset `d`: row `i` yields `process_hud_row` of row `i`. -/
def step3Enrich (o : Oracle α) (d : List Row) : Nat → Option HudResult :=
  fun i => (d[i]?).bind (processHudRow (fun _ => true) o.ratio o.hud i)

/-- `step1_download_zillow_data`: skipped when `resume_from_step >= 1`, else
both bulk tables are downloaded or the stage fails.  The returned flag
records whether the previously-completed skip branch was taken. -/
def runStep1 (o : Oracle α) (resumeFrom : Nat) (s : PState α) : Option (PState α × Bool) :=
  let s1 := { s with currentStep := 1 }
  if resumeFrom ≥ 1 then some (s1, true)
  else
    match o.download with
    | some ab => some ({ s1 with zhvi := some ab.1, zori := some ab.2 }, false)
    | none => none

/-- `step2_merge_zillow_data`: the skip branch returns `len(final_data)`
(falsy, hence a pipeline abort, when the restored dataset is missing or
empty); the live branch needs both bulk tables, merges them, and returns
the new length. -/
def runStep2 (o : Oracle α) (resumeFrom : Nat) (s : PState α) : Option (PState α × Bool) :=
  let s1 := { s with currentStep := 2 }
  if resumeFrom ≥ 2 then
    match s1.finalData with
    | some d => if d.isEmpty then none else some (s1, true)
    | none => none
  else
    match s1.zhvi, s1.zori with
    | some a, some b =>
      let d := (o.merge a b).map initRow
      if d.isEmpty then none else some ({ s1 with finalData := some d }, false)
    | _, _ => none

/-- `step3_fetch_hud_data` without a stop: the skip branch returns the
non-null `entityid` count of the restored dataset (falsy, hence an abort,
when it is 0); the live branch enriches all rows in batches and returns
the new count, aborting when it is 0. -/
def runStep3 (o : Oracle α) (bs resumeFrom : Nat) (s : PState α) : Option (PState α × Bool) :=
  let s1 := { s with currentStep := 3 }
  if resumeFrom ≥ 3 then
    match s1.finalData with
    | some d => if entityCount d = 0 then none else some (s1, true)
    | none => none
  else
    match s1.finalData with
    | some d =>
      if d.isEmpty then none
      else
        let d2 := step3Batched (step3Enrich o d) bs none d
        if entityCount d2 = 0 then none else some ({ s1 with finalData := some d2 }, false)
    | none => none

/-- `step4_fetch_nar_data`: the skip branch returns the non-null
`NMediumValue` count; the live branch needs a dataset and a census download
and returns the match count, which aborts the pipeline when 0 (including
the census-failure path, which returns 0). -/
def runStep4 (o : Oracle α) (resumeFrom : Nat) (s : PState α) : Option (PState α × Bool) :=
  let s1 := { s with currentStep := 4 }
  if resumeFrom ≥ 4 then
    match s1.finalData with
    | some d => if nMediumCount d = 0 then none else some (s1, true)
    | none => none
  else
    match s1.finalData with
    | some d =>
      if d.isEmpty then none
      else
        match o.census with
        | none => none
        | some census =>
          let dm := matchNarData o.ratio d census
          if dm.2 = 0 then none else some ({ s1 with finalData := some dm.1 }, false)
    | none => none

/-- `step5_calculate_ratios`: the skip branch returns `True`; the live branch
needs a non-empty dataset and maps the ratio calculation over it. -/
def runStep5 (_o : Oracle α) (resumeFrom : Nat) (s : PState α) : Option (PState α × Bool) :=
  let s1 := { s with currentStep := 5 }
  if resumeFrom ≥ 5 then some (s1, true)
  else
    match s1.finalData with
    | some d =>
      if d.isEmpty then none
      else some ({ s1 with finalData := some (d.map calculateAllRatios) }, false)
    | none => none

/-- `step6_save_final_data` has no skip branch: it needs a non-empty dataset
and persists it unchanged. -/
def runStep6 (_o : Oracle α) (s : PState α) : Option (PState α × Bool) :=
  let s1 := { s with currentStep := 6 }
  match s1.finalData with
  | some d => if d.isEmpty then none else some (s1, false)
  | none => none

/-- Stage dispatch of `run_complete_pipeline`. -/
def stepFn (o : Oracle α) (bs resumeFrom k : Nat) (s : PState α) : Option (PState α × Bool) :=
  match k with
  | 1 => runStep1 o resumeFrom s
  | 2 => runStep2 o resumeFrom s
  | 3 => runStep3 o bs resumeFrom s
  | 4 => runStep4 o resumeFrom s
  | 5 => runStep5 o resumeFrom s
  | 6 => runStep6 o s
  | _ => none

/-- A sequence of stages, each aborting the run on a falsy result (the `if not
self.stepK(): return False` chain); the collected flags record which stages
took their previously-completed skip branch. -/
def runSteps (o : Oracle α) (bs resumeFrom : Nat) (ks : List Nat) (s : PState α) :
    Option (PState α × List Bool) :=
  match ks with
  | [] => some (s, [])
  | k :: rest =>
    match stepFn o bs resumeFrom k s with
    | none => none
    | some st =>
      match runSteps o bs resumeFrom rest st.1 with
      | none => none
      | some rt => some (rt.1, st.2 :: rt.2)

/-- `run_complete_pipeline`: the six stages in order, with `resumeFrom` the
value of `self.resume_from_step`. -/
def runPipeline (o : Oracle α) (bs resumeFrom : Nat) (s : PState α) :
    Option (PState α × List Bool) :=
  runSteps o bs resumeFrom [1, 2, 3, 4, 5, 6] s

/-- As wired in scrape.py's `main`: `Partners8Pipeline.__init__` sets
`resume_from_step = 0` and `load_previous_state` is never called anywhere
in the repository, so every start runs with resume point 0 regardless of
any checkpoint on disk. -/
def mainResumeFrom : Nat := 0

/-- The interrupted Stage 3 of claim C2: the stop flag is observed while batch
`b` is in flight.  Following the source, the write-back guard discards the
current batch's collected results, the loop exits, and the unconditional
`save_current_state()` at the end of `step3_fetch_hud_data` still runs, so
the function returns the new state together with the checkpoint it leaves
on disk — whose `current_step` is 3, set by `set_current_step` at stage
entry. -/
def runStep3Stopped (o : Oracle α) (bs b : Nat) (s : PState α) : PState α × Checkpoint α :=
  let s1 := { s with currentStep := 3 }
  match s1.finalData with
  | some d =>
    let d2 := step3Batched (step3Enrich o d) bs (some b) d
    let s2 := { s1 with finalData := some d2 }
    (s2, toCheckpoint s2)
  | none => (s1, toCheckpoint s1)

/-! ## Concrete data for witnesses and counterexamples -/

/-- A directory in which the first candidate scores 91 against the query
"abcde" while only the second is an exact match. -/
def dirC1 : List Area := [⟨"abcdef", some "111"⟩, ⟨"abcde", some "222"⟩]

/-- A wire behaviour answering three consecutive 429s and then a 200. -/
def netC4 : Nat → WireOut := fun n => if n < 3 then .status 429 else .status 200

/-- A WorkingDataset row for a county present in the concrete HUD oracles. -/
def rowCA : Row :=
  { state := "CA", county := "Alameda", city := "Oakland", zRent := some 2000,
    zValue := some 800000, nMedium := none, entityid := none, il := none, eff := none,
    oneBr := none, twoBr := none, threeBr := none, fourBr := none,
    zRatio := .na, nRatio := .na, zhRatio := .na, nhRatio := .na }

/-- The row of spec scenario 5: rent 1000, home value 0. -/
def rowC6 : Row := { rowCA with zRent := some 1000, zValue := some 0 }

/-- An FMR payload with four convertible figures and a missing three-bedroom
figure. -/
def fmrW : FmrFields :=
  ⟨some (some 1000), some (some 1200), some (some 1500), none, some (some 2500)⟩

/-- A fully successful FMR payload. -/
def fmrOkW : FmrFields :=
  ⟨some (some 1000), some (some 1200), some (some 1500), some (some 2000), some (some 2500)⟩

/-- A HUD oracle whose directory resolves Alameda/CA, whose FMR fetch succeeds
and whose income-limit body read raises. -/
def oC8 : HudOracle where
  dir := fun s => if s = "CA" then some (.ok (.dict [⟨"alameda", some "06001"⟩])) else none
  fmr := fun e => if e = "06001" then some (.ok fmrOkW) else none
  il := fun e => if e = "06001" then some (.error ()) else none

/-- A HUD oracle whose directory body read raises for every state. -/
def oC8b : HudOracle :=
  ⟨fun _ => some (.error ()), fun _ => none, fun _ => none⟩

/-- A HUD oracle that resolves Alameda/CA and returns income limit 0.0. -/
def oC10 : HudOracle where
  dir := fun s => if s = "CA" then some (.ok (.dict [⟨"alameda", some "06001"⟩])) else none
  fmr := fun e => if e = "06001" then some (.ok fmrOkW) else none
  il := fun e => if e = "06001" then some (.ok (some (some 0))) else none

/-- A HUD oracle for which every request fails. -/
def oC5 : HudOracle := ⟨fun _ => none, fun _ => none, fun _ => none⟩

/-- A merged bulk row for the concrete pipeline runs.  The home value 0 makes
every Stage-5 ratio a division by zero, cleaned to null — convenient for
kernel evaluation, which cannot normalise non-trivial rational
divisions. -/
def bulkW : BulkRow := ⟨"CA", "Alameda", "Oakland", some 2000, some 0⟩

/-- A fully successful HUD oracle for the concrete pipeline runs. -/
def hudW : HudOracle where
  dir := fun s => if s = "CA" then some (.ok (.dict [⟨"alameda", some "06001"⟩])) else none
  fmr := fun e => if e = "06001" then some (.ok fmrOkW) else none
  il := fun e => if e = "06001" then some (.ok (some (some 50000))) else none

/-- A deterministic oracle under which a full pipeline run succeeds on one
row. -/
def oW : Oracle Unit where
  download := some ((), ())
  merge := fun _ _ => [bulkW]
  ratio := fuzzRatio
  hud := hudW
  census := some [⟨"Alameda County", "California", 0⟩]

/-- The row of `oW`'s dataset after a successful Stage 3. -/
def rowEnrichedW : Row :=
  { initRow bulkW with
    entityid := some "06001"
    il := some 50000
    eff := some 1000
    oneBr := some 1200
    twoBr := some 1500
    threeBr := some 2000
    fourBr := some 2500 }

/-- The row of `oW`'s dataset at the end of a successful run: both value
columns are zero, so all four ratios are cleaned infinities, i.e. null. -/
def rowFinalW : Row :=
  { rowEnrichedW with
    nMedium := some 0
    zRatio := .na
    nRatio := .na
    zhRatio := .na
    nhRatio := .na }

/-- A four-row post-Stage-2 state, for the interrupted-Stage-3 scenario. -/
def s2C2 : PState Unit :=
  ⟨some [initRow bulkW, initRow bulkW, initRow bulkW, initRow bulkW], some (), some (), 2⟩

/-- The one-row post-Stage-2 state of the `oW` run. -/
def s2W : PState Unit := ⟨some [initRow bulkW], some (), some (), 2⟩

/-- The final state of the full `oW` run. -/
def sFW : PState Unit := ⟨some [rowFinalW], some (), some (), 6⟩

/-- A prepared census table: two Illinois rows (one a strong fuzzy match for
the misspelled query "sprngfield") and one Ohio row sitting exactly at the
similarity threshold for the query "ab". -/
def censusW : List CEntry :=
  [⟨"cook", "Illinois", 200⟩, ⟨"springfield", "Illinois", 100⟩, ⟨"abc", "Ohio", 7⟩]

/-! ## Claim C1 — geocode resolver matching policy -/

theorem findFips_eq_firstMatch (ratio : String → String → Nat) (q : String) :
    ∀ l : List Area, findFips ratio q l = fipsFirstMatch ratio q l := by
  intro l
  induction l with
  | nil => rfl
  | cons a rest ih =>
    by_cases h1 : normalizeApiCounty a.cntyname = q
    · have hcond : (normalizeApiCounty a.cntyname == q
          || decide (ratio (normalizeApiCounty a.cntyname) q > 75)) = true := by
        simp [h1]
      simp [findFips, fipsFirstMatch, List.find?, hcond, h1]
    · by_cases h2 : ratio (normalizeApiCounty a.cntyname) q > 75
      · have hcond : (normalizeApiCounty a.cntyname == q
            || decide (ratio (normalizeApiCounty a.cntyname) q > 75)) = true := by
          simp [h2]
        simp [findFips, fipsFirstMatch, List.find?, hcond, h1, h2]
      · have hcond : (normalizeApiCounty a.cntyname == q
            || decide (ratio (normalizeApiCounty a.cntyname) q > 75)) = false := by
          simp [h1, h2]
        simp only [findFips, fipsFirstMatch, List.find?, hcond, if_neg h1, if_neg h2]
        exact ih

/-- Claim C1, corrected part: the resolver does not give exact matches
priority over the whole directory; for a successfully fetched directory (in
either JSON shape) the result is that of the single-pass first-match policy
`fipsFirstMatch`, in which each candidate is tested for an exact match and
then for a fuzzy score above 75 before the next candidate is considered. -/
theorem geocode_first_match_policy (ratio : String → String → Nat) (l : List Area)
    (county : String) :
    getFipsCode ratio (some (.ok (.dict l))) county
      = fipsFirstMatch ratio (normalizeQueryCounty county) l
  ∧ getFipsCode ratio (some (.ok (.arr l))) county
      = fipsFirstMatch ratio (normalizeQueryCounty county) l :=
  ⟨findFips_eq_firstMatch ratio (normalizeQueryCounty county) l,
   findFips_eq_firstMatch ratio (normalizeQueryCounty county) l⟩

/-- Claim C1, counterexample to the claim as stated: the fetched directory
contains a candidate whose normalised name equals the normalised query
("abcde", entity id 222), yet the resolver returns 111 — the id of the
earlier candidate "abcdef", whose fuzzy score 91 exceeds 75 and is tested
before the later exact candidate is ever reached.  Exact matching does not
decide this call. -/
theorem geocode_fuzzy_preempts_exact :
    getFipsCode fuzzRatio (some (.ok (.dict dirC1))) "abcde" = some "111"
  ∧ firstExact (normalizeQueryCounty "abcde") dirC1 = some ⟨"abcde", some "222"⟩
  ∧ fuzzRatio "abcdef" "abcde" = 91
  ∧ (some "111" : Option String) ≠ some "222" := by
  refine ⟨by decide, by decide, by decide, by decide⟩

/-! ## Claim C4 — 429 back-off budget of the fetch client -/

/-- Claim C4, corrected: the transport `Retry` adapter mounted by
`create_session` absorbs up to three consecutive forcelist statuses, so
three 429s followed by a 200 on the wire make `session.get` return the
200 to the first manual attempt and `rate_limited_request` returns it —
but the sleeps performed are the urllib3 backoffs `0, 2, 4` seconds
(`backoff_factor = 1`, no jitter), not the claimed `2 ^ attempt +
random[0,1)` per 429: that manual branch never runs, because
`session.get` never returns a 429 (exhaustion raises `RetryError` into
the `except` branch instead, as the second conjunct shows: an unbroken
run of wire 429s exhausts every budget — sleeps
`0,2,4` + `1` + `0,2,4` + `2` + `0,2,4` — and yields `None`). -/
theorem transport_backoff_amended (net : Nat → WireOut) (jitter : Nat → ℚ) (k : Nat)
    (hk : k ≤ 3) (h429 : ∀ i, i < k → net i = .status 429) (h200 : net k = .status 200) :
    rateLimitedRequest (fun _ => true) net jitter 3
      = (some k, (List.range k).map (fun r => urlBackoff (r + 1)))
  ∧ ∀ net2 : Nat → WireOut, (∀ i, net2 i = .status 429) →
      rateLimitedRequest (fun _ => true) net2 jitter 3
        = (none, [0, 2, 4, 1, 0, 2, 4, 2, 0, 2, 4]) := by
  constructor
  · have hr : List.range 3 = [0, 1, 2] := rfl
    interval_cases k
    · simp [rateLimitedRequest, hr, rlLoop, sessionGet, sessionGetAux, h200, retryStatuses]
    · have h0 := h429 0 (by omega)
      simp [rateLimitedRequest, hr, rlLoop, sessionGet, sessionGetAux, h0, h200,
        retryStatuses, List.range_succ]
    · have h0 := h429 0 (by omega)
      have h1 := h429 1 (by omega)
      simp [rateLimitedRequest, hr, rlLoop, sessionGet, sessionGetAux, h0, h1, h200,
        retryStatuses, List.range_succ]
    · have h0 := h429 0 (by omega)
      have h1 := h429 1 (by omega)
      have h2 := h429 2 (by omega)
      simp [rateLimitedRequest, hr, rlLoop, sessionGet, sessionGetAux, h0, h1, h2, h200,
        retryStatuses, List.range_succ]
  · intro net2 h
    have hr : List.range 3 = [0, 1, 2] := rfl
    simp [rateLimitedRequest, hr, rlLoop, sessionGet, sessionGetAux, h, retryStatuses,
      urlBackoff]
    norm_num

/-- Claim C4, counterexample to the claim as stated: with three consecutive
429s and then a 200 on the wire, `rate_limited_request` does return the
200 (the transport adapter absorbed the 429s), but the sleeps are the
urllib3 backoffs `[0, 2, 4]` — no list of the claimed form
`2 ^ attempt + random[0,1)` per 429 matches them, whatever the jitter
values, since the first claimed sleep would be at least 1 second. -/
theorem backoff_sleeps_not_jittered :
    netC4 0 = .status 429 ∧ netC4 1 = .status 429 ∧ netC4 2 = .status 429
  ∧ netC4 3 = .status 200
  ∧ rateLimitedRequest (fun _ => true) netC4 (fun _ => 0) 3 = (some 3, [0, 2, 4])
  ∧ ∀ j : Nat → ℚ, (∀ n, 0 ≤ j n) →
      (rateLimitedRequest (fun _ => true) netC4 (fun _ => 0) 3).2
        ≠ [2 ^ 0 + j 0, 2 ^ 1 + j 1, 2 ^ 2 + j 2] := by
  have hr : List.range 3 = [0, 1, 2] := rfl
  have hrun : rateLimitedRequest (fun _ => true) netC4 (fun _ => 0) 3
      = (some 3, [0, 2, 4]) := by
    simp [rateLimitedRequest, hr, rlLoop, sessionGet, sessionGetAux, netC4,
      retryStatuses, urlBackoff]
    norm_num
  refine ⟨by decide, by decide, by decide, by decide, hrun, ?_⟩
  intro j hj heq
  rw [hrun] at heq
  simp only [List.cons.injEq] at heq
  have h0 := heq.1
  have := hj 0
  norm_num at h0
  linarith

/-- Witness for `transport_backoff_amended`: two wire 429s then a 200 — the
200 is returned after backoff sleeps 0 and 2 seconds; an unbroken run of
429s yields `None`. -/
theorem transport_backoff_witness :
    rateLimitedRequest (fun _ => true)
        (fun n => if n < 2 then .status 429 else .status 200) (fun _ => 1 / 2) 3
      = (some 2, [0, 2])
  ∧ (rateLimitedRequest (fun _ => true) (fun _ => .status 429) (fun _ => 1 / 2) 3).1
      = none := by
  have h := transport_backoff_amended
      (fun n => if n < 2 then .status 429 else .status 200) (fun _ => 1 / 2) 2
      (by decide) (fun i hi => by interval_cases i <;> rfl) (by rfl)
  constructor
  · rw [h.1]
    norm_num [List.range_succ, urlBackoff]
  · rw [h.2 (fun _ => .status 429) (fun i => rfl)]

/-! ## Claim C6 — null denominators in the ratio calculator -/

theorem cleanInf_pdDiv_na (a b : Option ℚ) (h : b = none ∨ b = some 0) :
    cleanInf (pdDiv a b) = .na := by
  rcases h with h | h <;> subst h
  · cases a <;> rfl
  · rcases a with _ | x
    · rfl
    · show cleanInf (if (0 : ℚ) = 0 then
          if x > 0 then PFloat.pinf else if x < 0 then PFloat.ninf else PFloat.na
        else PFloat.fin (x / 0)) = PFloat.na
      rw [if_pos rfl]
      by_cases hx : x > 0
      · rw [if_pos hx]; rfl
      · rw [if_neg hx]
        by_cases hx2 : x < 0
        · rw [if_pos hx2]; rfl
        · rw [if_neg hx2]; rfl

theorem cleanInf_not_inf (x : PFloat) : cleanInf x ≠ .pinf ∧ cleanInf x ≠ .ninf := by
  cases x <;> simp [cleanInf]

/-- Claim C6: in `calculate_all_ratios`, each of the four ratio columns is
null whenever its denominator column (`ZMediumValue` for the Zillow and ZH
ratios, `NMediumValue` for the NAR and NH ratios) is null or zero, and no
ratio column ever holds an infinity — the bare division's infinities are
converted to null by the `np.isinf` clean-up.  The calculation is a total
function: it never raises. -/
theorem ratio_null_denominator (r : Row) :
    ((r.zValue = none ∨ r.zValue = some 0) → (calculateAllRatios r).zRatio = .na)
  ∧ ((r.nMedium = none ∨ r.nMedium = some 0) → (calculateAllRatios r).nRatio = .na)
  ∧ ((r.zValue = none ∨ r.zValue = some 0) → (calculateAllRatios r).zhRatio = .na)
  ∧ ((r.nMedium = none ∨ r.nMedium = some 0) → (calculateAllRatios r).nhRatio = .na)
  ∧ (calculateAllRatios r).zRatio ≠ .pinf ∧ (calculateAllRatios r).zRatio ≠ .ninf
  ∧ (calculateAllRatios r).nRatio ≠ .pinf ∧ (calculateAllRatios r).nRatio ≠ .ninf
  ∧ (calculateAllRatios r).zhRatio ≠ .pinf ∧ (calculateAllRatios r).zhRatio ≠ .ninf
  ∧ (calculateAllRatios r).nhRatio ≠ .pinf ∧ (calculateAllRatios r).nhRatio ≠ .ninf := by
  refine ⟨fun h => cleanInf_pdDiv_na _ _ h, fun h => cleanInf_pdDiv_na _ _ h,
    fun h => cleanInf_pdDiv_na _ _ h, fun h => cleanInf_pdDiv_na _ _ h,
    (cleanInf_not_inf _).1, (cleanInf_not_inf _).2, (cleanInf_not_inf _).1,
    (cleanInf_not_inf _).2, (cleanInf_not_inf _).1, (cleanInf_not_inf _).2,
    (cleanInf_not_inf _).1, (cleanInf_not_inf _).2⟩

/-- Witness for `ratio_null_denominator` at spec scenario 5: rent 1000 and
home value 0 give a null Zillow ratio, not an infinity. -/
theorem ratio_null_denominator_witness :
    (calculateAllRatios rowC6).zRatio = .na
  ∧ rowC6.zRent = some 1000 ∧ rowC6.zValue = some 0 :=
  ⟨(ratio_null_denominator rowC6).1 (Or.inr rfl), rfl, rfl⟩

/-! ## The per-row enrichment worker: claims C8, C9, C10, C5 -/

theorem processHudRow_true_eq (ratio : String → String → Nat) (o : HudOracle)
    (i : Nat) (row : Row) :
    processHudRow (fun _ => true) ratio o i row = some (hudRowResult ratio o i row) := by
  unfold processHudRow hudRowResult
  simp only [not_true_eq_false, if_false]
  rcases getFipsCode ratio (o.dir row.state) row.county with _ | f
  · rfl
  · by_cases hne : f = ""
    · simp [hne]
    · simp only [hne, ne_eq, not_false_eq_true, and_true, if_true, true_and, if_pos]
      rcases getFmrData (o.fmr f) with _ | fd <;>
        rcases getIncomeLimits (o.il f) with _ | v <;>
        simp [allNA] <;> split_ifs <;> simp [allNA]

theorem hudResult_inv (cont : Nat → Bool) (ratio : String → String → Nat) (o : HudOracle)
    (i : Nat) (row : Row) (res : HudResult)
    (h : processHudRow cont ratio o i row = some res) :
    res.index = i ∧ hudResEntityNullInv res := by
  by_cases hc : cont 0
  case neg => simp [processHudRow, hc] at h
  rcases hfips : getFipsCode ratio (o.dir row.state) row.county with _ | f
  · simp only [processHudRow, hc, hfips, not_true_eq_false, if_false,
      Option.some.injEq] at h
    subst h
    exact ⟨rfl, by simp [allNA, hudResEntityNullInv]⟩
  · by_cases hcd : f ≠ "" ∧ cont 1 <;>
      rcases hfm : getFmrData (o.fmr f) with _ | fd <;>
      rcases hil : getIncomeLimits (o.il f) with _ | v <;>
      simp only [processHudRow, hc, hfips, hfm, hil, hcd, not_true_eq_false, if_false,
        if_true, iff_true, iff_false, Option.some.injEq] at h <;>
      (try split_ifs at h) <;>
      (try simp only [Option.some.injEq] at h) <;>
      subst h <;>
      constructor <;>
      simp [allNA, hudResEntityNullInv]

/-- Claim C8, amended: `process_hud_row` is total — any exception inside the
three fetch helpers is caught there — and always returns a result whose
index is the row's.  An exception while resolving the entity id yields the
all-null result; but an exception in the FMR fetch nulls only the five
rent figures, and an exception in the income-limit fetch nulls only the
income limit, leaving the already-resolved entity id (and any other
fetched fields) in place.  In every case the batch continues. -/
theorem process_hud_row_exception_amended (ratio : String → String → Nat) (o : HudOracle)
    (i : Nat) (row : Row) :
    ∃ res, processHudRow (fun _ => true) ratio o i row = some res ∧ res.index = i
      ∧ (o.dir row.state = some (.error ()) → res = allNA i)
      ∧ (∀ f, res.entityid = some f → o.fmr f = some (.error ()) →
          res.eff = none ∧ res.oneBr = none ∧ res.twoBr = none ∧ res.threeBr = none
            ∧ res.fourBr = none)
      ∧ (∀ f, res.entityid = some f → o.il f = some (.error ()) → res.il = none) := by
  refine ⟨hudRowResult ratio o i row, processHudRow_true_eq ratio o i row, ?_, ?_, ?_, ?_⟩
  · rcases hfips : getFipsCode ratio (o.dir row.state) row.county with _ | f
    · simp [hudRowResult, hfips, allNA]
    · by_cases hne : f = "" <;> simp [hudRowResult, hfips, hne, allNA]
  · intro hdir
    have hfips : getFipsCode ratio (o.dir row.state) row.county = none := by
      rw [hdir]; rfl
    simp [hudRowResult, hfips]
  · intro f hf hraise
    rcases hfips : getFipsCode ratio (o.dir row.state) row.county with _ | g
    · simp [hudRowResult, hfips, allNA] at hf
    · by_cases hne : g = ""
      · simp [hudRowResult, hfips, hne, allNA] at hf
      · simp only [hudRowResult, hfips, hne, ne_eq, not_false_eq_true, if_true,
          Option.some.injEq] at hf ⊢
        have hgf : g = f := hf
        have hfm : getFmrData (o.fmr g) = none := by rw [hgf, hraise]; rfl
        simp [hfm]
  · intro f hf hraise
    rcases hfips : getFipsCode ratio (o.dir row.state) row.county with _ | g
    · simp [hudRowResult, hfips, allNA] at hf
    · by_cases hne : g = ""
      · simp [hudRowResult, hfips, hne, allNA] at hf
      · simp only [hudRowResult, hfips, hne, ne_eq, not_false_eq_true, if_true,
          Option.some.injEq] at hf ⊢
        have hgf : g = f := hf
        have hil : getIncomeLimits (o.il g) = none := by rw [hgf, hraise]; rfl
        simp [hil]

/-- Claim C8, counterexample to the claim as stated: under `oC8` the income
limit fetch raises internally (its body read fails) after the entity id
has been resolved and the rents fetched; the exception is caught, but the
returned result is not all-null — it keeps the entity id and the five
rents.  "Any internal exception is caught and the call returns an all-null
result" is therefore false as stated. -/
theorem il_exception_not_all_null :
    processHudRow (fun _ => true) fuzzRatio oC8 7 rowCA
      = some ⟨7, some "06001", none, some 1000, some 1200, some 1500, some 2000, some 2500⟩
  ∧ oC8.il "06001" = some (.error ())
  ∧ (⟨7, some "06001", none, some 1000, some 1200, some 1500, some 2000, some 2500⟩ : HudResult)
      ≠ allNA 7 := by
  refine ⟨by decide, by rfl, by decide⟩

/-- Witness for `process_hud_row_exception_amended`: a directory fetch whose
body read raises yields the all-null result with the index preserved. -/
theorem process_hud_row_exception_witness :
    processHudRow (fun _ => true) fuzzRatio oC8b 3 rowCA = some (allNA 3) := by
  obtain ⟨res, h1, _, h3, _, _⟩ := process_hud_row_exception_amended fuzzRatio oC8b 3 rowCA
  rw [h1, h3 rfl]

/-- Claim C9: the five bedroom-size rents are all-or-nothing.  If any one of
the five figures in the FMR payload is absent or non-convertible, the
`float` call raises, `get_fmr_data` returns `None`, and every one of the
five rent columns of the row stays null — even those whose figures were
present. -/
theorem fmr_all_or_nothing (fp : FmrFields)
    (h : floatOfField fp.efficiency = none ∨ floatOfField fp.oneBr = none ∨
         floatOfField fp.twoBr = none ∨ floatOfField fp.threeBr = none ∨
         floatOfField fp.fourBr = none) :
    getFmrData (some (.ok fp)) = none
  ∧ ∀ (ratio : String → String → Nat) (o : HudOracle) (i : Nat) (row : Row),
      (∀ e, o.fmr e = some (.ok fp)) →
      ∃ res, processHudRow (fun _ => true) ratio o i row = some res
        ∧ res.eff = none ∧ res.oneBr = none ∧ res.twoBr = none ∧ res.threeBr = none
        ∧ res.fourBr = none := by
  have hnone : getFmrData (some (.ok fp)) = none := by
    rcases h1 : floatOfField fp.efficiency with _ | a <;>
      rcases h2 : floatOfField fp.oneBr with _ | b <;>
      rcases h3 : floatOfField fp.twoBr with _ | c <;>
      rcases h4 : floatOfField fp.threeBr with _ | d <;>
      rcases h5 : floatOfField fp.fourBr with _ | e <;>
      simp_all [getFmrData]
  refine ⟨hnone, ?_⟩
  intro ratio o i row hfmr
  refine ⟨hudRowResult ratio o i row, processHudRow_true_eq ratio o i row, ?_⟩
  rcases hfips : getFipsCode ratio (o.dir row.state) row.county with _ | f
  · simp [hudRowResult, hfips, allNA]
  · by_cases hne : f = ""
    · simp [hudRowResult, hfips, hne, allNA]
    · have hfm : getFmrData (o.fmr f) = none := by rw [hfmr f, hnone]
      simp [hudRowResult, hfips, hne, hfm]

/-- Witness for `fmr_all_or_nothing`: four of the five figures are present and
convertible, the three-bedroom figure is absent; the whole payload is
discarded. -/
theorem fmr_all_or_nothing_witness :
    getFmrData (some (.ok fmrW)) = none
  ∧ fmrW.efficiency = some (some 1000) ∧ fmrW.threeBr = none := by
  refine ⟨(fmr_all_or_nothing fmrW (Or.inr (Or.inr (Or.inr (Or.inl rfl))))).1, rfl, rfl⟩

/-- Claim C10: the income-limit field of the enrichment result is populated
exactly when the fetched value is truthy — a successfully fetched income
limit equal to 0 is discarded by the `if income_limit` guard, leaving the
column null despite the successful fetch. -/
theorem income_limit_truthiness (ratio : String → String → Nat) (o : HudOracle)
    (i : Nat) (row : Row) (f : String) (hne : f ≠ "")
    (hfips : getFipsCode ratio (o.dir row.state) row.county = some f) :
    ∃ res, processHudRow (fun _ => true) ratio o i row = some res
      ∧ res.il = (match getIncomeLimits (o.il f) with
                  | some v => if v ≠ 0 then some v else none
                  | none => none) := by
  refine ⟨hudRowResult ratio o i row, processHudRow_true_eq ratio o i row, ?_⟩
  unfold hudRowResult
  rw [hfips]
  simp only [hne, ne_eq, not_false_eq_true, if_true]

/-- Witness for `income_limit_truthiness`: under `oC10` the income-limit fetch
succeeds with value 0.0, yet the result's income limit is null. -/
theorem income_limit_zero_witness :
    ∃ res, processHudRow (fun _ => true) fuzzRatio oC10 0 rowCA = some res
      ∧ res.il = none
  ∧ getIncomeLimits (oC10.il "06001") = some 0 := by
  obtain ⟨res, h1, h2⟩ := income_limit_truthiness fuzzRatio oC10 0 rowCA "06001"
    (by decide) (by decide)
  refine ⟨res, h1, ?_, by decide⟩
  rw [h2]
  decide

/-! ## Claim C5 — Stage-3 entity-null invariant -/

theorem mem_updateAt {α : Type} (f : α → α) :
    ∀ (l : List α) (i : Nat) (x : α), x ∈ updateAt i f l → x ∈ l ∨ ∃ y ∈ l, x = f y := by
  intro l
  induction l with
  | nil => intro i x hx; simp [updateAt] at hx
  | cons a as ih =>
    intro i x hx
    cases i with
    | zero =>
      rcases List.mem_cons.mp hx with hx | hx
      · right; exact ⟨a, List.mem_cons_self a as, hx⟩
      · left; exact List.mem_cons_of_mem _ hx
    | succ j =>
      rcases List.mem_cons.mp hx with hx | hx
      · left; simp [hx]
      · rcases ih j x hx with h | ⟨y, hy, hxy⟩
        · left; exact List.mem_cons_of_mem _ h
        · right; exact ⟨y, List.mem_cons_of_mem _ hy, hxy⟩

theorem foldl_preserve {β : Type} (P : Row → Prop) (g : List Row → β → List Row)
    (hg : ∀ acc b, (∀ r ∈ acc, P r) → ∀ r ∈ g acc b, P r) :
    ∀ (l : List β) (acc : List Row), (∀ r ∈ acc, P r) → ∀ r ∈ l.foldl g acc, P r := by
  intro l
  induction l with
  | nil => intro acc h; simpa using h
  | cons b bs ih => intro acc h; exact ih _ (hg acc b h)

theorem writeResult_inv (d : List Row) (res : Option HudResult)
    (hd : ∀ r ∈ d, rowEntityNullInv r)
    (hres : ∀ x, res = some x → hudResEntityNullInv x) :
    ∀ r ∈ writeResult d res, rowEntityNullInv r := by
  intro r hr
  rcases res with _ | x
  · exact hd r hr
  · rcases mem_updateAt _ _ _ _ hr with h | ⟨y, hy, hxy⟩
    · exact hd r h
    · subst hxy
      intro he
      exact hres x rfl he

/-- Claim C5: after Stage 3 (with or without a mid-run stop, over any network
behaviour and any stop-flag behaviour inside the workers), every row of a
WorkingDataset whose enrichment columns started all-null satisfies: a null
`entityid` implies that the income limit and all five bedroom-size rents
are null — the government metrics are populated only behind a resolved
entity id. -/
theorem stage3_entity_null_invariant (cont : Nat → Bool) (ratio : String → String → Nat)
    (o : HudOracle) (bs : Nat) (stop : Option Nat) (d : List Row)
    (h0 : ∀ r ∈ d, r.entityid = none ∧ r.il = none ∧ r.eff = none ∧ r.oneBr = none
        ∧ r.twoBr = none ∧ r.threeBr = none ∧ r.fourBr = none) :
    ∀ r ∈ step3Batched (fun i => (d[i]?).bind (processHudRow cont ratio o i)) bs stop d,
      rowEntityNullInv r := by
  have hinv : ∀ r ∈ d, rowEntityNullInv r := fun r hr _ => (h0 r hr).2
  have hres : ∀ i x, ((d[i]?).bind (processHudRow cont ratio o i)) = some x →
      hudResEntityNullInv x := by
    intro i x hx
    rcases Option.bind_eq_some.mp hx with ⟨row, _, hpr⟩
    exact (hudResult_inv cont ratio o i row x hpr).2
  intro r hr
  simp only [step3Batched] at hr
  refine foldl_preserve rowEntityNullInv _ ?_ _ d hinv r hr
  intro acc batch hacc
  refine foldl_preserve rowEntityNullInv _ ?_ batch acc hacc
  intro acc2 j hacc2
  exact writeResult_inv acc2 _ hacc2 (hres j)

/-- Witness for `stage3_entity_null_invariant`: one all-null row and an oracle
for which every request fails; the surviving row keeps a null income
limit. -/
theorem stage3_entity_null_witness :
    ((step3Batched (fun i => (([initRow bulkW])[i]?).bind
        (processHudRow (fun _ => true) fuzzRatio oC5 i)) 2 none [initRow bulkW]).getD 0
        (initRow bulkW)).il = none := by
  have h := stage3_entity_null_invariant (fun _ => true) fuzzRatio oC5 2 none
    [initRow bulkW] (by decide)
  exact (h _ (by decide) (by decide)).1

/-! ## Claim C7 — county-name matcher policy -/

theorem foldBest_mono (ratio : String → String → Nat) (q : String) :
    ∀ (l : List CEntry) (s : Nat) (b : Option CEntry), s ≤ (foldBest ratio q l s b).1 := by
  intro l
  induction l with
  | nil => intro s b; simp [foldBest]
  | cons a rest ih =>
    intro s b
    simp only [foldBest]
    by_cases hcond : ratio q a.countyClean > s ∧ ratio q a.countyClean > 80
    · rw [if_pos hcond]
      exact le_trans (Nat.le_of_lt hcond.1) (ih _ _)
    · rw [if_neg hcond]
      exact ih s b

theorem foldBest_bound (ratio : String → String → Nat) (q : String) :
    ∀ (l : List CEntry) (s : Nat) (b : Option CEntry), ∀ c ∈ l,
      ratio q c.countyClean ≤ max (foldBest ratio q l s b).1 80 := by
  intro l
  induction l with
  | nil => intro s b c hc; simp at hc
  | cons a rest ih =>
    intro s b c hc
    simp only [foldBest]
    rcases List.mem_cons.mp hc with hceq | hcmem
    · subst hceq
      by_cases hcond : ratio q c.countyClean > s ∧ ratio q c.countyClean > 80
      · rw [if_pos hcond]
        exact le_trans (foldBest_mono ratio q rest _ _) (le_max_left _ _)
      · rw [if_neg hcond]
        rcases not_and_or.mp hcond with h | h
        · exact le_trans (Nat.not_lt.mp h)
            (le_trans (foldBest_mono ratio q rest _ _) (le_max_left _ _))
        · exact le_trans (Nat.not_lt.mp h) (le_max_right _ _)
    · by_cases hcond : ratio q a.countyClean > s ∧ ratio q a.countyClean > 80
      · rw [if_pos hcond]; exact ih _ _ c hcmem
      · rw [if_neg hcond]; exact ih _ _ c hcmem

theorem foldBest_cases (ratio : String → String → Nat) (q : String) :
    ∀ (l : List CEntry) (s : Nat) (b : Option CEntry),
      ((foldBest ratio q l s b).2 = b ∧ (foldBest ratio q l s b).1 = s)
      ∨ ∃ c ∈ l, (foldBest ratio q l s b).2 = some c
          ∧ (foldBest ratio q l s b).1 = ratio q c.countyClean
          ∧ ratio q c.countyClean > 80 ∧ ratio q c.countyClean > s := by
  intro l
  induction l with
  | nil => intro s b; left; exact ⟨rfl, rfl⟩
  | cons a rest ih =>
    intro s b
    simp only [foldBest]
    by_cases hcond : ratio q a.countyClean > s ∧ ratio q a.countyClean > 80
    · rw [if_pos hcond]
      rcases ih (ratio q a.countyClean) (some a) with ⟨h1, h2⟩ | ⟨c, hc, h1, h2, h3, h4⟩
      · right
        exact ⟨a, List.mem_cons_self a rest, h1, h2, hcond.2, hcond.1⟩
      · right
        exact ⟨c, List.mem_cons_of_mem _ hc, h1, h2, h3, lt_trans hcond.1 h4⟩
    · rw [if_neg hcond]
      rcases ih s b with h | ⟨c, hc, hrest⟩
      · left; exact h
      · right; exact ⟨c, List.mem_cons_of_mem _ hc, hrest⟩

/-- Claim C7: per WorkingDataset row, the County-Name Matcher keys the exact
lookup by the normalised county name and the normalised full state name;
on an exact miss it restricts candidates to census rows of the same
normalised state and assigns the value of a candidate with the highest
similarity score, provided that score strictly exceeds 80, and assigns no
match otherwise — in particular a candidate scoring exactly 80 is never
matched. -/
theorem nar_match_policy (ratio : String → String → Nat) (census : List CEntry) (r : Row) :
    narRowValue ratio census r
      = matchNarRow ratio census (normalizeCountyName r.county) (normalizeStateName r.state)
  ∧ ∀ cc sf,
      (∀ v, lookupCensus census cc sf = some v → matchNarRow ratio census cc sf = some v)
    ∧ (lookupCensus census cc sf = none →
        ((∀ c ∈ census.filter (fun c => c.stateClean == sf), ratio cc c.countyClean ≤ 80) →
            matchNarRow ratio census cc sf = none)
      ∧ (∀ v, matchNarRow ratio census cc sf = some v →
          ∃ c ∈ census.filter (fun c => c.stateClean == sf), v = c.value
            ∧ ratio cc c.countyClean > 80
            ∧ ∀ c2 ∈ census.filter (fun c => c.stateClean == sf),
                ratio cc c2.countyClean ≤ ratio cc c.countyClean)
      ∧ ((∃ c ∈ census.filter (fun c => c.stateClean == sf), ratio cc c.countyClean > 80) →
          (matchNarRow ratio census cc sf).isSome)) := by
  refine ⟨rfl, ?_⟩
  intro cc sf
  refine ⟨fun v hv => by simp [matchNarRow, hv], ?_⟩
  intro hmiss
  have hrow : matchNarRow ratio census cc sf
      = if (census.filter (fun c => c.stateClean == sf)).isEmpty then none
        else ((foldBest ratio cc (census.filter (fun c => c.stateClean == sf)) 0 none).2).map
          CEntry.value := by
    simp [matchNarRow, hmiss]
  refine ⟨?_, ?_, ?_⟩
  · intro hle
    rcases foldBest_cases ratio cc (census.filter (fun c => c.stateClean == sf)) 0 none
        with ⟨h1, h2⟩ | ⟨c, hc, h1, h2, h3, h4⟩
    · rw [hrow]
      by_cases he : (census.filter (fun c => c.stateClean == sf)).isEmpty
      · simp [he]
      · simp [he, h1]
    · exact absurd h3 (Nat.not_lt.mpr (hle c hc))
  · intro v hv
    rw [hrow] at hv
    by_cases he : (census.filter (fun c => c.stateClean == sf)).isEmpty
    · simp [he] at hv
    · rw [if_neg he] at hv
      rcases hfold : (foldBest ratio cc (census.filter (fun c => c.stateClean == sf)) 0 none).2
          with _ | c
      · rw [hfold] at hv; simp at hv
      · rw [hfold] at hv
        simp only [Option.map_some', Option.some.injEq] at hv
        rcases foldBest_cases ratio cc (census.filter (fun c => c.stateClean == sf)) 0 none
            with ⟨h1, h2⟩ | ⟨c2, hc2, h1, h2, h3, h4⟩
        · rw [hfold] at h1; simp at h1
        · have hcc : c2 = c := by
            have := hfold.symm.trans h1
            simpa using this.symm
          subst hcc
          refine ⟨c2, hc2, hv.symm, h3, ?_⟩
          intro c3 hc3
          have hb := foldBest_bound ratio cc (census.filter (fun c => c.stateClean == sf))
            0 none c3 hc3
          rw [h2, Nat.max_eq_left (Nat.le_of_lt h3)] at hb
          exact hb
  · rintro ⟨c, hc, hgt⟩
    rcases foldBest_cases ratio cc (census.filter (fun c => c.stateClean == sf)) 0 none
        with ⟨h1, h2⟩ | ⟨c2, hc2, h1, h2, h3, h4⟩
    · have hb := foldBest_bound ratio cc (census.filter (fun c => c.stateClean == sf))
        0 none c hc
      rw [h2, Nat.max_eq_right (Nat.zero_le 80)] at hb
      omega
    · rw [hrow]
      have hne : (census.filter (fun c => c.stateClean == sf)).isEmpty = false := by
        rcases hfl : census.filter (fun c => c.stateClean == sf) with _ | ⟨x, xs⟩
        · rw [hfl] at hc; simp at hc
        · rw [hfl]; rfl
      simp [hne, h1]

/-- Witness for `nar_match_policy`: the misspelled "sprngfield" misses the
exact lookup for Illinois but scores 95 against "springfield" and is
matched; the query "ab" against the Ohio candidate "abc" scores exactly 80
and is not matched. -/
theorem nar_match_policy_witness :
    lookupCensus censusW "sprngfield" "Illinois" = none
  ∧ (matchNarRow fuzzRatio censusW "sprngfield" "Illinois").isSome
  ∧ matchNarRow fuzzRatio censusW "ab" "Ohio" = none
  ∧ fuzzRatio "ab" "abc" = 80 := by
  have h1 := (nar_match_policy fuzzRatio censusW rowCA).2 "sprngfield" "Illinois"
  have h2 := (nar_match_policy fuzzRatio censusW rowCA).2 "ab" "Ohio"
  refine ⟨by decide, ?_, ?_, by decide⟩
  · exact (h1.2 (by decide)).2.2 ⟨⟨"springfield", "Illinois", 100⟩, by decide, by decide⟩
  · exact (h2.2 (by decide)).1 (by decide)

/-! ## Claim C3 — orchestrator helper lemmas -/

theorem isEmpty_false_of_length {α : Type} (l : List α) (h : l.length ≠ 0) :
    l.isEmpty = false := by
  cases l
  · simp at h
  · rfl

theorem length_ne_zero_of_isEmpty_false {α : Type} (l : List α) (h : l.isEmpty = false) :
    l.length ≠ 0 := by
  cases l
  · simp at h
  · simp

theorem length_updateAt {α : Type} (f : α → α) :
    ∀ (l : List α) (i : Nat), (updateAt i f l).length = l.length := by
  intro l
  induction l with
  | nil => intro i; cases i <;> rfl
  | cons a as ih =>
    intro i
    cases i with
    | zero => rfl
    | succ j => simp [updateAt, ih j]

theorem length_writeResult (d : List Row) (res : Option HudResult) :
    (writeResult d res).length = d.length := by
  rcases res with _ | x
  · rfl
  · simp [writeResult, length_updateAt]

theorem length_innerFold (e : Nat → Option HudResult) :
    ∀ (batch : List Nat) (acc : List Row),
      (batch.foldl (fun a i => writeResult a (e i)) acc).length = acc.length := by
  intro batch
  induction batch with
  | nil => intro acc; rfl
  | cons j js ih => intro acc; rw [List.foldl_cons, ih, length_writeResult]

theorem length_step3Batched (e : Nat → Option HudResult) (bs : Nat) (stop : Option Nat)
    (d : List Row) : (step3Batched e bs stop d).length = d.length := by
  have key : ∀ (bl : List (List Nat)) (acc : List Row),
      (bl.foldl (fun acc batch => batch.foldl (fun a i => writeResult a (e i)) acc)
        acc).length = acc.length := by
    intro bl
    induction bl with
    | nil => intro acc; rfl
    | cons batch rest ih => intro acc; rw [List.foldl_cons, ih, length_innerFold]
  simp only [step3Batched]
  exact key _ d

theorem matchNarData_shape (ratio : String → String → Nat) (d : List Row)
    (cr : List CensusRaw) :
    ((matchNarData ratio d cr).1).length = d.length
  ∧ entityCount (matchNarData ratio d cr).1 = entityCount d
  ∧ (matchNarData ratio d cr).2 = nMediumCount (matchNarData ratio d cr).1 := by
  refine ⟨by simp [matchNarData], ?_, rfl⟩
  simp only [matchNarData, entityCount, List.countP_map]
  rfl

theorem calculateAllRatios_preserve (d : List Row) :
    (d.map calculateAllRatios).length = d.length
  ∧ entityCount (d.map calculateAllRatios) = entityCount d
  ∧ nMediumCount (d.map calculateAllRatios) = nMediumCount d := by
  refine ⟨by simp, ?_, ?_⟩ <;> simp only [entityCount, nMediumCount, List.countP_map] <;> rfl

theorem runSteps_cons_some (o : Oracle α) (bs r k : Nat) (ks : List Nat) (s sEnd : PState α)
    (t : List Bool) (h : runSteps o bs r (k :: ks) s = some (sEnd, t)) :
    ∃ p t2, stepFn o bs r k s = some p ∧ runSteps o bs r ks p.1 = some (sEnd, t2)
      ∧ t = p.2 :: t2 := by
  rcases hs : stepFn o bs r k s with _ | p
  · simp [runSteps, hs] at h
  · rcases hr : runSteps o bs r ks p.1 with _ | rt
    · simp [runSteps, hs, hr] at h
    · simp only [runSteps, hs, hr, Option.some.injEq, Prod.mk.injEq] at h
      exact ⟨p, rt.2, rfl, by rw [hr, ← h.1], h.2.symm⟩

theorem runSteps_append (o : Oracle α) (bs r : Nat) :
    ∀ (l1 l2 : List Nat) (s : PState α),
      runSteps o bs r (l1 ++ l2) s
        = match runSteps o bs r l1 s with
          | none => none
          | some st =>
            match runSteps o bs r l2 st.1 with
            | none => none
            | some rt => some (rt.1, st.2 ++ rt.2) := by
  intro l1
  induction l1 with
  | nil =>
    intro l2 s
    simp only [List.nil_append, runSteps]
    rcases runSteps o bs r l2 s with _ | rt <;> rfl
  | cons k ks ih =>
    intro l2 s
    simp only [List.cons_append, runSteps]
    rcases stepFn o bs r k s with _ | p
    · rfl
    · dsimp only
      rw [show (ks.append l2 : List Nat) = ks ++ l2 from rfl, ih l2 p.1]
      rcases runSteps o bs r ks p.1 with _ | rt
      · rfl
      · dsimp only
        rcases runSteps o bs r l2 rt.1 with _ | rt2
        · rfl
        · dsimp only
          rw [List.cons_append]

theorem stepFn_nonskip (o : Oracle α) (bs r1 r2 k : Nat) (s : PState α)
    (hr1 : r1 < k) (hr2 : r2 < k) : stepFn o bs r1 k s = stepFn o bs r2 k s := by
  rcases k with _ | _ | _ | _ | _ | _ | _ | k
  · omega
  · simp only [stepFn, runStep1]; rw [if_neg (by omega), if_neg (by omega)]
  · simp only [stepFn, runStep2]; rw [if_neg (by omega), if_neg (by omega)]
  · simp only [stepFn, runStep3]; rw [if_neg (by omega), if_neg (by omega)]
  · simp only [stepFn, runStep4]; rw [if_neg (by omega), if_neg (by omega)]
  · simp only [stepFn, runStep5]; rw [if_neg (by omega), if_neg (by omega)]
  · rfl
  · rfl

theorem runSteps_nonskip (o : Oracle α) (bs r1 r2 : Nat) :
    ∀ (l : List Nat) (s : PState α), (∀ k ∈ l, r1 < k ∧ r2 < k) →
      runSteps o bs r1 l s = runSteps o bs r2 l s := by
  intro l
  induction l with
  | nil => intro s h; rfl
  | cons k ks ih =>
    intro s h
    simp only [runSteps]
    rw [stepFn_nonskip o bs r1 r2 k s (h k (List.mem_cons_self k ks)).1
      (h k (List.mem_cons_self k ks)).2]
    rcases stepFn o bs r2 k s with _ | p
    · rfl
    · dsimp only
      rw [ih p.1 (fun k2 hk2 => h k2 (List.mem_cons_of_mem _ hk2))]

theorem step1_shape (o : Oracle α) (bs : Nat) (s s2 : PState α) (b : Bool)
    (h : stepFn o bs 0 1 s = some (s2, b)) :
    s2.currentStep = 1 ∧ s2.finalData = s.finalData ∧ b = false := by
  simp only [stepFn, runStep1] at h
  rw [if_neg (by omega)] at h
  rcases hdl : o.download with _ | ab <;> simp only [hdl] at h
  · simp at h
  · simp only [Option.some.injEq, Prod.mk.injEq] at h
    obtain ⟨hs2, hb⟩ := h
    subst hs2
    subst hb
    exact ⟨rfl, rfl, rfl⟩

theorem step2_shape (o : Oracle α) (bs : Nat) (s s2 : PState α) (b : Bool)
    (h : stepFn o bs 0 2 s = some (s2, b)) :
    s2.currentStep = 2 ∧ (∃ d, s2.finalData = some d ∧ d.isEmpty = false) ∧ b = false := by
  simp only [stepFn, runStep2] at h
  rw [if_neg (by omega)] at h
  rcases hz1 : s.zhvi with _ | a <;> simp only [hz1] at h
  · simp at h
  · rcases hz2 : s.zori with _ | c <;> simp only [hz2] at h
    · simp at h
    · cases hie : ((o.merge a c).map initRow).isEmpty <;> simp only [hie] at h
      · simp only [Bool.false_eq_true, if_false, Option.some.injEq, Prod.mk.injEq] at h
        obtain ⟨hs2, hb⟩ := h
        subst hs2
        subst hb
        exact ⟨rfl, ⟨(o.merge a c).map initRow, rfl, hie⟩, rfl⟩
      · simp at h

theorem step3_shape (o : Oracle α) (bs : Nat) (s s2 : PState α) (b : Bool)
    (h : stepFn o bs 0 3 s = some (s2, b)) :
    s2.currentStep = 3
  ∧ (∃ d2, s2.finalData = some d2 ∧ d2.isEmpty = false ∧ entityCount d2 ≠ 0)
  ∧ b = false := by
  simp only [stepFn, runStep3] at h
  rw [if_neg (by omega)] at h
  rcases hfd : s.finalData with _ | d <;> simp only [hfd] at h
  · simp at h
  · cases hie : d.isEmpty <;> simp only [hie] at h
    · by_cases hec : entityCount (step3Batched (step3Enrich o d) bs none d) = 0
      · simp [hec] at h
      · simp only [Bool.false_eq_true, if_false, if_neg hec, Option.some.injEq,
          Prod.mk.injEq] at h
        obtain ⟨hs2, hb⟩ := h
        subst hs2
        subst hb
        refine ⟨rfl, ⟨step3Batched (step3Enrich o d) bs none d, rfl, ?_, hec⟩, rfl⟩
        exact isEmpty_false_of_length _ (by
          rw [length_step3Batched]
          exact length_ne_zero_of_isEmpty_false d hie)
    · simp at h

theorem step4_shape (o : Oracle α) (bs : Nat) (s s2 : PState α) (b : Bool)
    (h : stepFn o bs 0 4 s = some (s2, b)) :
    s2.currentStep = 4 ∧ b = false
  ∧ ∃ d d2, s.finalData = some d ∧ s2.finalData = some d2 ∧ d2.length = d.length
      ∧ entityCount d2 = entityCount d ∧ nMediumCount d2 ≠ 0 := by
  simp only [stepFn, runStep4] at h
  rw [if_neg (by omega)] at h
  rcases hfd : s.finalData with _ | d <;> simp only [hfd] at h
  · simp at h
  · cases hie : d.isEmpty <;> simp only [hie] at h
    · rcases hcs : o.census with _ | census <;> simp only [hcs] at h
      · simp at h
      · by_cases hm : (matchNarData o.ratio d census).2 = 0
        · simp [hm] at h
        · simp only [Bool.false_eq_true, if_false, if_neg hm, Option.some.injEq,
            Prod.mk.injEq] at h
          obtain ⟨hs2, hb⟩ := h
          subst hs2
          subst hb
          obtain ⟨hlen, hent, hcnt⟩ := matchNarData_shape o.ratio d census
          refine ⟨rfl, rfl, d, (matchNarData o.ratio d census).1, rfl, rfl, hlen, hent, ?_⟩
          rw [← hcnt]
          exact hm
    · simp at h

theorem step5_shape (o : Oracle α) (bs : Nat) (s s2 : PState α) (b : Bool)
    (h : stepFn o bs 0 5 s = some (s2, b)) :
    s2.currentStep = 5 ∧ b = false
  ∧ ∃ d, s.finalData = some d ∧ d.isEmpty = false
      ∧ s2.finalData = some (d.map calculateAllRatios) := by
  simp only [stepFn, runStep5] at h
  rw [if_neg (by omega)] at h
  rcases hfd : s.finalData with _ | d <;> simp only [hfd] at h
  · simp at h
  · cases hie : d.isEmpty <;> simp only [hie] at h
    · simp only [Bool.false_eq_true, if_false, Option.some.injEq, Prod.mk.injEq] at h
      obtain ⟨hs2, hb⟩ := h
      subst hs2
      subst hb
      exact ⟨rfl, rfl, d, rfl, hie, rfl⟩
    · simp at h

theorem step6_shape (o : Oracle α) (bs : Nat) (s s2 : PState α) (b : Bool)
    (h : stepFn o bs 0 6 s = some (s2, b)) :
    s2.currentStep = 6 ∧ b = false ∧ s2.finalData = s.finalData := by
  simp only [stepFn, runStep6] at h
  rcases hfd : s.finalData with _ | d <;> simp only [hfd] at h
  · simp at h
  · cases hie : d.isEmpty <;> simp only [hie] at h
    · simp only [Bool.false_eq_true, if_false, Option.some.injEq, Prod.mk.injEq] at h
      obtain ⟨hs2, hb⟩ := h
      subst hs2
      subst hb
      exact ⟨rfl, rfl, rfl⟩
    · simp at h

theorem skip1_eval (o : Oracle α) (bs r : Nat) (s : PState α) (hr : 1 ≤ r) :
    stepFn o bs r 1 s = some ({ s with currentStep := 1 }, true) := by
  simp [stepFn, runStep1, hr]

theorem skip2_eval (o : Oracle α) (bs r : Nat) (s : PState α) (d : List Row) (hr : 2 ≤ r)
    (hd : s.finalData = some d) (hne : d.isEmpty = false) :
    stepFn o bs r 2 s = some ({ s with currentStep := 2 }, true) := by
  simp [stepFn, runStep2, hr, hd, hne]

theorem skip3_eval (o : Oracle α) (bs r : Nat) (s : PState α) (d : List Row) (hr : 3 ≤ r)
    (hd : s.finalData = some d) (hec : entityCount d ≠ 0) :
    stepFn o bs r 3 s = some ({ s with currentStep := 3 }, true) := by
  simp [stepFn, runStep3, hr, hd, hec]

theorem skip4_eval (o : Oracle α) (bs r : Nat) (s : PState α) (d : List Row) (hr : 4 ≤ r)
    (hd : s.finalData = some d) (hmc : nMediumCount d ≠ 0) :
    stepFn o bs r 4 s = some ({ s with currentStep := 4 }, true) := by
  simp [stepFn, runStep4, hr, hd, hmc]

theorem skip5_eval (o : Oracle α) (bs r : Nat) (s : PState α) (hr : 5 ≤ r) :
    stepFn o bs r 5 s = some ({ s with currentStep := 5 }, true) := by
  simp [stepFn, runStep5, hr]

/-- Claim C3: correctness of the resume mechanism, and the missing wiring at
start-up.  For identical network behaviour (a fixed oracle), if the first
`N` stages (1 ≤ N ≤ 5) succeed and the checkpoint written after stage `N`
is reloaded by `load_previous_state` into a fresh process, then running
the pipeline with `resume_from_step = checkpoint.current_step` produces
exactly the final state of the uncheckpointed full run, with stages
`1..N` taking their skip branches and stages `N+1..6` executing — it
resumes from `checkpoint.stage + 1`.  The last conjunct records the bug:
a start as wired in the repository (`mainResumeFrom = 0`, because `main`
never calls `load_previous_state`) executes all six stages with no skip,
ignoring any checkpoint on disk. -/
theorem resume_mechanism_equiv {α : Type} (o : Oracle α) (bs N : Nat)
    (h1 : 1 ≤ N) (h5 : N ≤ 5) (sN sF : PState α) (tN tF : List Bool)
    (hpre : runSteps o bs 0 (List.range' 1 N) pipelineInit = some (sN, tN))
    (hfull : runPipeline o bs mainResumeFrom pipelineInit = some (sF, tF)) :
    (toCheckpoint sN).currentStep = N
  ∧ runPipeline o bs (toCheckpoint sN).currentStep (resumeInit (toCheckpoint sN))
      = some (sF, List.replicate N true ++ List.replicate (6 - N) false)
  ∧ tF = List.replicate 6 false := by
  obtain ⟨fd, zh, zo, cs⟩ := sN
  simp only [mainResumeFrom] at hfull
  interval_cases N
  · -- N = 1
    rw [show List.range' 1 1 = [1] from rfl] at hpre
    obtain ⟨p1, t1, e1, hpre1, ht1⟩ := runSteps_cons_some _ _ _ _ _ _ _ _ hpre
    have hend : p1.1 = ⟨fd, zh, zo, cs⟩ ∧ t1 = [] := by
      simp only [runSteps, Option.some.injEq, Prod.mk.injEq] at hpre1
      exact ⟨hpre1.1, hpre1.2.symm⟩
    obtain ⟨hc1, hfd1, hb1⟩ := step1_shape o bs pipelineInit p1.1 p1.2 e1
    have hcs : cs = 1 := by rw [hend.1] at hc1; exact hc1
    subst hcs
    rw [runPipeline, show ([1, 2, 3, 4, 5, 6] : List Nat) = [1] ++ [2, 3, 4, 5, 6] from rfl,
      runSteps_append, hpre] at hfull
    dsimp only at hfull
    rcases hsuf : runSteps o bs 0 [2, 3, 4, 5, 6] ⟨fd, zh, zo, 1⟩ with _ | rt
    · rw [hsuf] at hfull; exact Option.noConfusion hfull
    rw [hsuf] at hfull
    dsimp only at hfull
    simp only [Option.some.injEq, Prod.mk.injEq] at hfull
    obtain ⟨q2, u2, f2, hs2, hu2⟩ := runSteps_cons_some _ _ _ _ _ _ _ _ hsuf
    obtain ⟨q3, u3, f3, hs3, hu3⟩ := runSteps_cons_some _ _ _ _ _ _ _ _ hs2
    obtain ⟨q4, u4, f4, hs4, hu4⟩ := runSteps_cons_some _ _ _ _ _ _ _ _ hs3
    obtain ⟨q5, u5, f5, hs5, hu5⟩ := runSteps_cons_some _ _ _ _ _ _ _ _ hs4
    obtain ⟨q6, u6, f6, hs6, hu6⟩ := runSteps_cons_some _ _ _ _ _ _ _ _ hs5
    have hend6 : q6.1 = rt.1 ∧ u6 = [] := by
      simp only [runSteps, Option.some.injEq, Prod.mk.injEq] at hs6
      exact ⟨hs6.1, hs6.2.symm⟩
    have hrt2 : rt.2 = [false, false, false, false, false] := by
      rw [hu2, hu3, hu4, hu5, hu6, hend6.2, (step2_shape o bs _ q2.1 q2.2 f2).2.2,
        (step3_shape o bs _ q3.1 q3.2 f3).2.2, (step4_shape o bs _ q4.1 q4.2 f4).2.1,
        (step5_shape o bs _ q5.1 q5.2 f5).2.1, (step6_shape o bs _ q6.1 q6.2 f6).2.1]
    have htN : tN = [false] := by rw [ht1, hend.2, hb1]
    have htF : tF = List.replicate 6 false := by rw [← hfull.2, htN, hrt2]; rfl
    refine ⟨rfl, ?_, htF⟩
    show runSteps o bs 1 [1, 2, 3, 4, 5, 6] (⟨fd, zh, zo, 0⟩ : PState α) = _
    rw [show ([1, 2, 3, 4, 5, 6] : List Nat) = [1] ++ [2, 3, 4, 5, 6] from rfl,
      runSteps_append]
    have hk1 := skip1_eval o bs 1 (⟨fd, zh, zo, 0⟩ : PState α) (by omega)
    have hskip : runSteps o bs 1 [1] (⟨fd, zh, zo, 0⟩ : PState α)
        = some (⟨fd, zh, zo, 1⟩, [true]) := by
      simp only [runSteps, hk1]
    rw [hskip]
    dsimp only
    rw [runSteps_nonskip o bs 1 0 [2, 3, 4, 5, 6] ⟨fd, zh, zo, 1⟩ (by decide), hsuf]
    dsimp only
    rw [hfull.1, hrt2]
    rfl
  · -- N = 2
    rw [show List.range' 1 2 = [1, 2] from rfl] at hpre
    obtain ⟨p1, t1, e1, hpre1, ht1⟩ := runSteps_cons_some _ _ _ _ _ _ _ _ hpre
    obtain ⟨p2, t2, e2, hpre2, ht2⟩ := runSteps_cons_some _ _ _ _ _ _ _ _ hpre1
    have hend : p2.1 = ⟨fd, zh, zo, cs⟩ ∧ t2 = [] := by
      simp only [runSteps, Option.some.injEq, Prod.mk.injEq] at hpre2
      exact ⟨hpre2.1, hpre2.2.symm⟩
    obtain ⟨hc1, hfd1, hb1⟩ := step1_shape o bs pipelineInit p1.1 p1.2 e1
    obtain ⟨hc2, ⟨d2, hfd2, hne2⟩, hb2⟩ := step2_shape o bs p1.1 p2.1 p2.2 e2
    have hfdeq : fd = some d2 := by rw [hend.1] at hfd2; exact hfd2
    have hcs : cs = 2 := by rw [hend.1] at hc2; exact hc2
    subst hcs
    rw [runPipeline, show ([1, 2, 3, 4, 5, 6] : List Nat) = [1, 2] ++ [3, 4, 5, 6] from rfl,
      runSteps_append, hpre] at hfull
    dsimp only at hfull
    rcases hsuf : runSteps o bs 0 [3, 4, 5, 6] ⟨fd, zh, zo, 2⟩ with _ | rt
    · rw [hsuf] at hfull; exact Option.noConfusion hfull
    rw [hsuf] at hfull
    dsimp only at hfull
    simp only [Option.some.injEq, Prod.mk.injEq] at hfull
    obtain ⟨q3, u3, f3, hs3, hu3⟩ := runSteps_cons_some _ _ _ _ _ _ _ _ hsuf
    obtain ⟨q4, u4, f4, hs4, hu4⟩ := runSteps_cons_some _ _ _ _ _ _ _ _ hs3
    obtain ⟨q5, u5, f5, hs5, hu5⟩ := runSteps_cons_some _ _ _ _ _ _ _ _ hs4
    obtain ⟨q6, u6, f6, hs6, hu6⟩ := runSteps_cons_some _ _ _ _ _ _ _ _ hs5
    have hend6 : q6.1 = rt.1 ∧ u6 = [] := by
      simp only [runSteps, Option.some.injEq, Prod.mk.injEq] at hs6
      exact ⟨hs6.1, hs6.2.symm⟩
    have hrt2 : rt.2 = [false, false, false, false] := by
      rw [hu3, hu4, hu5, hu6, hend6.2, (step3_shape o bs _ q3.1 q3.2 f3).2.2,
        (step4_shape o bs _ q4.1 q4.2 f4).2.1, (step5_shape o bs _ q5.1 q5.2 f5).2.1,
        (step6_shape o bs _ q6.1 q6.2 f6).2.1]
    have htN : tN = [false, false] := by rw [ht1, ht2, hend.2, hb1, hb2]
    have htF : tF = List.replicate 6 false := by rw [← hfull.2, htN, hrt2]; rfl
    refine ⟨rfl, ?_, htF⟩
    show runSteps o bs 2 [1, 2, 3, 4, 5, 6] (⟨fd, zh, zo, 0⟩ : PState α) = _
    rw [show ([1, 2, 3, 4, 5, 6] : List Nat) = [1, 2] ++ [3, 4, 5, 6] from rfl,
      runSteps_append]
    have hk1 := skip1_eval o bs 2 (⟨fd, zh, zo, 0⟩ : PState α) (by omega)
    have hk2 := skip2_eval o bs 2 (⟨fd, zh, zo, 1⟩ : PState α) d2 (by omega) hfdeq hne2
    have hskip : runSteps o bs 2 [1, 2] (⟨fd, zh, zo, 0⟩ : PState α)
        = some (⟨fd, zh, zo, 2⟩, [true, true]) := by
      simp only [runSteps, hk1, hk2]
    rw [hskip]
    dsimp only
    rw [runSteps_nonskip o bs 2 0 [3, 4, 5, 6] ⟨fd, zh, zo, 2⟩ (by decide), hsuf]
    dsimp only
    rw [hfull.1, hrt2]
    rfl
  · -- N = 3
    rw [show List.range' 1 3 = [1, 2, 3] from rfl] at hpre
    obtain ⟨p1, t1, e1, hpre1, ht1⟩ := runSteps_cons_some _ _ _ _ _ _ _ _ hpre
    obtain ⟨p2, t2, e2, hpre2, ht2⟩ := runSteps_cons_some _ _ _ _ _ _ _ _ hpre1
    obtain ⟨p3, t3, e3, hpre3, ht3⟩ := runSteps_cons_some _ _ _ _ _ _ _ _ hpre2
    have hend : p3.1 = ⟨fd, zh, zo, cs⟩ ∧ t3 = [] := by
      simp only [runSteps, Option.some.injEq, Prod.mk.injEq] at hpre3
      exact ⟨hpre3.1, hpre3.2.symm⟩
    obtain ⟨hc1, hfd1, hb1⟩ := step1_shape o bs pipelineInit p1.1 p1.2 e1
    obtain ⟨hc2, ⟨d2, hfd2, hne2⟩, hb2⟩ := step2_shape o bs p1.1 p2.1 p2.2 e2
    obtain ⟨hc3, ⟨d3, hfd3, hne3, hec3⟩, hb3⟩ := step3_shape o bs p2.1 p3.1 p3.2 e3
    have hfdeq : fd = some d3 := by rw [hend.1] at hfd3; exact hfd3
    have hcs : cs = 3 := by rw [hend.1] at hc3; exact hc3
    subst hcs
    rw [runPipeline, show ([1, 2, 3, 4, 5, 6] : List Nat) = [1, 2, 3] ++ [4, 5, 6] from rfl,
      runSteps_append, hpre] at hfull
    dsimp only at hfull
    rcases hsuf : runSteps o bs 0 [4, 5, 6] ⟨fd, zh, zo, 3⟩ with _ | rt
    · rw [hsuf] at hfull; exact Option.noConfusion hfull
    rw [hsuf] at hfull
    dsimp only at hfull
    simp only [Option.some.injEq, Prod.mk.injEq] at hfull
    obtain ⟨q4, u4, f4, hs4, hu4⟩ := runSteps_cons_some _ _ _ _ _ _ _ _ hsuf
    obtain ⟨q5, u5, f5, hs5, hu5⟩ := runSteps_cons_some _ _ _ _ _ _ _ _ hs4
    obtain ⟨q6, u6, f6, hs6, hu6⟩ := runSteps_cons_some _ _ _ _ _ _ _ _ hs5
    have hend6 : q6.1 = rt.1 ∧ u6 = [] := by
      simp only [runSteps, Option.some.injEq, Prod.mk.injEq] at hs6
      exact ⟨hs6.1, hs6.2.symm⟩
    have hrt2 : rt.2 = [false, false, false] := by
      rw [hu4, hu5, hu6, hend6.2, (step4_shape o bs _ q4.1 q4.2 f4).2.1,
        (step5_shape o bs _ q5.1 q5.2 f5).2.1, (step6_shape o bs _ q6.1 q6.2 f6).2.1]
    have htN : tN = [false, false, false] := by rw [ht1, ht2, ht3, hend.2, hb1, hb2, hb3]
    have htF : tF = List.replicate 6 false := by rw [← hfull.2, htN, hrt2]; rfl
    refine ⟨rfl, ?_, htF⟩
    show runSteps o bs 3 [1, 2, 3, 4, 5, 6] (⟨fd, zh, zo, 0⟩ : PState α) = _
    rw [show ([1, 2, 3, 4, 5, 6] : List Nat) = [1, 2, 3] ++ [4, 5, 6] from rfl,
      runSteps_append]
    have hk1 := skip1_eval o bs 3 (⟨fd, zh, zo, 0⟩ : PState α) (by omega)
    have hk2 := skip2_eval o bs 3 (⟨fd, zh, zo, 1⟩ : PState α) d3 (by omega) hfdeq hne3
    have hk3 := skip3_eval o bs 3 (⟨fd, zh, zo, 2⟩ : PState α) d3 (by omega) hfdeq hec3
    have hskip : runSteps o bs 3 [1, 2, 3] (⟨fd, zh, zo, 0⟩ : PState α)
        = some (⟨fd, zh, zo, 3⟩, [true, true, true]) := by
      simp only [runSteps, hk1, hk2, hk3]
    rw [hskip]
    dsimp only
    rw [runSteps_nonskip o bs 3 0 [4, 5, 6] ⟨fd, zh, zo, 3⟩ (by decide), hsuf]
    dsimp only
    rw [hfull.1, hrt2]
    rfl
  · -- N = 4
    rw [show List.range' 1 4 = [1, 2, 3, 4] from rfl] at hpre
    obtain ⟨p1, t1, e1, hpre1, ht1⟩ := runSteps_cons_some _ _ _ _ _ _ _ _ hpre
    obtain ⟨p2, t2, e2, hpre2, ht2⟩ := runSteps_cons_some _ _ _ _ _ _ _ _ hpre1
    obtain ⟨p3, t3, e3, hpre3, ht3⟩ := runSteps_cons_some _ _ _ _ _ _ _ _ hpre2
    obtain ⟨p4, t4, e4, hpre4, ht4⟩ := runSteps_cons_some _ _ _ _ _ _ _ _ hpre3
    have hend : p4.1 = ⟨fd, zh, zo, cs⟩ ∧ t4 = [] := by
      simp only [runSteps, Option.some.injEq, Prod.mk.injEq] at hpre4
      exact ⟨hpre4.1, hpre4.2.symm⟩
    obtain ⟨hc1, hfd1, hb1⟩ := step1_shape o bs pipelineInit p1.1 p1.2 e1
    obtain ⟨hc2, ⟨d2, hfd2, hne2⟩, hb2⟩ := step2_shape o bs p1.1 p2.1 p2.2 e2
    obtain ⟨hc3, ⟨d3, hfd3, hne3, hec3⟩, hb3⟩ := step3_shape o bs p2.1 p3.1 p3.2 e3
    obtain ⟨hc4, hb4, d3x, d4, hfd3x, hfd4, hlen4, hent4, hmc4⟩ :=
      step4_shape o bs p3.1 p4.1 p4.2 e4
    have hd3x : d3x = d3 := Option.some.inj (hfd3x.symm.trans hfd3)
    rw [hd3x] at hlen4 hent4
    have hfdeq : fd = some d4 := by rw [hend.1] at hfd4; exact hfd4
    have hcs : cs = 4 := by rw [hend.1] at hc4; exact hc4
    subst hcs
    have hne4 : d4.isEmpty = false :=
      isEmpty_false_of_length d4
        (by rw [hlen4]; exact length_ne_zero_of_isEmpty_false d3 hne3)
    have hec4 : entityCount d4 ≠ 0 := by rw [hent4]; exact hec3
    rw [runPipeline, show ([1, 2, 3, 4, 5, 6] : List Nat) = [1, 2, 3, 4] ++ [5, 6] from rfl,
      runSteps_append, hpre] at hfull
    dsimp only at hfull
    rcases hsuf : runSteps o bs 0 [5, 6] ⟨fd, zh, zo, 4⟩ with _ | rt
    · rw [hsuf] at hfull; exact Option.noConfusion hfull
    rw [hsuf] at hfull
    dsimp only at hfull
    simp only [Option.some.injEq, Prod.mk.injEq] at hfull
    obtain ⟨q5, u5, f5, hs5, hu5⟩ := runSteps_cons_some _ _ _ _ _ _ _ _ hsuf
    obtain ⟨q6, u6, f6, hs6, hu6⟩ := runSteps_cons_some _ _ _ _ _ _ _ _ hs5
    have hend6 : q6.1 = rt.1 ∧ u6 = [] := by
      simp only [runSteps, Option.some.injEq, Prod.mk.injEq] at hs6
      exact ⟨hs6.1, hs6.2.symm⟩
    have hrt2 : rt.2 = [false, false] := by
      rw [hu5, hu6, hend6.2, (step5_shape o bs _ q5.1 q5.2 f5).2.1,
        (step6_shape o bs _ q6.1 q6.2 f6).2.1]
    have htN : tN = [false, false, false, false] := by
      rw [ht1, ht2, ht3, ht4, hend.2, hb1, hb2, hb3, hb4]
    have htF : tF = List.replicate 6 false := by rw [← hfull.2, htN, hrt2]; rfl
    refine ⟨rfl, ?_, htF⟩
    show runSteps o bs 4 [1, 2, 3, 4, 5, 6] (⟨fd, zh, zo, 0⟩ : PState α) = _
    rw [show ([1, 2, 3, 4, 5, 6] : List Nat) = [1, 2, 3, 4] ++ [5, 6] from rfl,
      runSteps_append]
    have hk1 := skip1_eval o bs 4 (⟨fd, zh, zo, 0⟩ : PState α) (by omega)
    have hk2 := skip2_eval o bs 4 (⟨fd, zh, zo, 1⟩ : PState α) d4 (by omega) hfdeq hne4
    have hk3 := skip3_eval o bs 4 (⟨fd, zh, zo, 2⟩ : PState α) d4 (by omega) hfdeq hec4
    have hk4 := skip4_eval o bs 4 (⟨fd, zh, zo, 3⟩ : PState α) d4 (by omega) hfdeq hmc4
    have hskip : runSteps o bs 4 [1, 2, 3, 4] (⟨fd, zh, zo, 0⟩ : PState α)
        = some (⟨fd, zh, zo, 4⟩, [true, true, true, true]) := by
      simp only [runSteps, hk1, hk2, hk3, hk4]
    rw [hskip]
    dsimp only
    rw [runSteps_nonskip o bs 4 0 [5, 6] ⟨fd, zh, zo, 4⟩ (by decide), hsuf]
    dsimp only
    rw [hfull.1, hrt2]
    rfl
  · -- N = 5
    rw [show List.range' 1 5 = [1, 2, 3, 4, 5] from rfl] at hpre
    obtain ⟨p1, t1, e1, hpre1, ht1⟩ := runSteps_cons_some _ _ _ _ _ _ _ _ hpre
    obtain ⟨p2, t2, e2, hpre2, ht2⟩ := runSteps_cons_some _ _ _ _ _ _ _ _ hpre1
    obtain ⟨p3, t3, e3, hpre3, ht3⟩ := runSteps_cons_some _ _ _ _ _ _ _ _ hpre2
    obtain ⟨p4, t4, e4, hpre4, ht4⟩ := runSteps_cons_some _ _ _ _ _ _ _ _ hpre3
    obtain ⟨p5, t5, e5, hpre5, ht5⟩ := runSteps_cons_some _ _ _ _ _ _ _ _ hpre4
    have hend : p5.1 = ⟨fd, zh, zo, cs⟩ ∧ t5 = [] := by
      simp only [runSteps, Option.some.injEq, Prod.mk.injEq] at hpre5
      exact ⟨hpre5.1, hpre5.2.symm⟩
    obtain ⟨hc1, hfd1, hb1⟩ := step1_shape o bs pipelineInit p1.1 p1.2 e1
    obtain ⟨hc2, ⟨d2, hfd2, hne2⟩, hb2⟩ := step2_shape o bs p1.1 p2.1 p2.2 e2
    obtain ⟨hc3, ⟨d3, hfd3, hne3, hec3⟩, hb3⟩ := step3_shape o bs p2.1 p3.1 p3.2 e3
    obtain ⟨hc4, hb4, d3x, d4, hfd3x, hfd4, hlen4, hent4, hmc4⟩ :=
      step4_shape o bs p3.1 p4.1 p4.2 e4
    have hd3x : d3x = d3 := Option.some.inj (hfd3x.symm.trans hfd3)
    rw [hd3x] at hlen4 hent4
    obtain ⟨hc5, hb5, d4x, hfd4x, hne4x, hfd5⟩ := step5_shape o bs p4.1 p5.1 p5.2 e5
    have hd4x : d4x = d4 := Option.some.inj (hfd4x.symm.trans hfd4)
    rw [hd4x] at hfd5
    have hfdeq : fd = some (d4.map calculateAllRatios) := by rw [hend.1] at hfd5; exact hfd5
    have hcs : cs = 5 := by rw [hend.1] at hc5; exact hc5
    subst hcs
    obtain ⟨hlen5, hent5, hmc5⟩ := calculateAllRatios_preserve d4
    have hne5 : (d4.map calculateAllRatios).isEmpty = false :=
      isEmpty_false_of_length _ (by
        rw [hlen5, hlen4]
        exact length_ne_zero_of_isEmpty_false d3 hne3)
    have hec5 : entityCount (d4.map calculateAllRatios) ≠ 0 := by
      rw [hent5, hent4]; exact hec3
    have hmc5x : nMediumCount (d4.map calculateAllRatios) ≠ 0 := by
      rw [hmc5]; exact hmc4
    rw [runPipeline, show ([1, 2, 3, 4, 5, 6] : List Nat) = [1, 2, 3, 4, 5] ++ [6] from rfl,
      runSteps_append, hpre] at hfull
    dsimp only at hfull
    rcases hsuf : runSteps o bs 0 [6] ⟨fd, zh, zo, 5⟩ with _ | rt
    · rw [hsuf] at hfull; exact Option.noConfusion hfull
    rw [hsuf] at hfull
    dsimp only at hfull
    simp only [Option.some.injEq, Prod.mk.injEq] at hfull
    obtain ⟨q6, u6, f6, hs6, hu6⟩ := runSteps_cons_some _ _ _ _ _ _ _ _ hsuf
    have hend6 : q6.1 = rt.1 ∧ u6 = [] := by
      simp only [runSteps, Option.some.injEq, Prod.mk.injEq] at hs6
      exact ⟨hs6.1, hs6.2.symm⟩
    have hrt2 : rt.2 = [false] := by
      rw [hu6, hend6.2, (step6_shape o bs _ q6.1 q6.2 f6).2.1]
    have htN : tN = [false, false, false, false, false] := by
      rw [ht1, ht2, ht3, ht4, ht5, hend.2, hb1, hb2, hb3, hb4, hb5]
    have htF : tF = List.replicate 6 false := by rw [← hfull.2, htN, hrt2]; rfl
    refine ⟨rfl, ?_, htF⟩
    show runSteps o bs 5 [1, 2, 3, 4, 5, 6] (⟨fd, zh, zo, 0⟩ : PState α) = _
    rw [show ([1, 2, 3, 4, 5, 6] : List Nat) = [1, 2, 3, 4, 5] ++ [6] from rfl,
      runSteps_append]
    have hk1 := skip1_eval o bs 5 (⟨fd, zh, zo, 0⟩ : PState α) (by omega)
    have hk2 := skip2_eval o bs 5 (⟨fd, zh, zo, 1⟩ : PState α) (d4.map calculateAllRatios)
      (by omega) hfdeq hne5
    have hk3 := skip3_eval o bs 5 (⟨fd, zh, zo, 2⟩ : PState α) (d4.map calculateAllRatios)
      (by omega) hfdeq hec5
    have hk4 := skip4_eval o bs 5 (⟨fd, zh, zo, 3⟩ : PState α) (d4.map calculateAllRatios)
      (by omega) hfdeq hmc5x
    have hk5 := skip5_eval o bs 5 (⟨fd, zh, zo, 4⟩ : PState α) (by omega)
    have hskip : runSteps o bs 5 [1, 2, 3, 4, 5] (⟨fd, zh, zo, 0⟩ : PState α)
        = some (⟨fd, zh, zo, 5⟩, [true, true, true, true, true]) := by
      simp only [runSteps, hk1, hk2, hk3, hk4, hk5]
    rw [hskip]
    dsimp only
    rw [runSteps_nonskip o bs 5 0 [6] ⟨fd, zh, zo, 5⟩ (by decide), hsuf]
    dsimp only
    rw [hfull.1, hrt2]
    rfl

/-- Witness for `resume_mechanism_equiv` at the concrete oracle `oW` with
`N = 2`: the run resumed from the post-Stage-2 checkpoint reproduces the
full run's final state, skipping stages 1 and 2. -/
theorem resume_mechanism_witness :
    runPipeline oW 2 ((toCheckpoint s2W).currentStep) (resumeInit (toCheckpoint s2W))
      = some (sFW, List.replicate 2 true ++ List.replicate (6 - 2) false) :=
  (resume_mechanism_equiv oW 2 2 (by decide) (by decide) s2W sFW [false, false]
    (List.replicate 6 false) (by decide) (by decide)).2.1

/-! ## Claim C2 — checkpoint left by a stop observed mid-batch in Stage 3 -/

/-- Claim C2 describes a bug in the code: under the oracle `oW`, a four-row
dataset checkpointed after Stage 2 is interrupted during Stage 3 while its
second batch (batch index 1, batch size 2) is in flight.  Evaluating the
source model at this input shows (1) the checkpoint left on disk records
`current_step = 3` — the step index `set_current_step` assigned at the
entry of the interrupted stage — and not 2, the last fully-completed
stage, contrary to the claim; (2) the interrupted batch's collected
results are discarded by the write-back guard, so rows 2 and 3 keep their
all-null enrichment columns while the first batch's rows are enriched;
and (3) a resume driven by this checkpoint (`resume_from_step = 3`,
as `load_previous_state` would set it) takes Stage 3's
previously-completed skip branch, silently treating the half-done stage
as complete. -/
theorem stopped_stage3_checkpoint_records_step3 :
    ((runStep3Stopped oW 2 1 s2C2).2).currentStep = 3
  ∧ ((runStep3Stopped oW 2 1 s2C2).2).currentStep ≠ 2
  ∧ ((runStep3Stopped oW 2 1 s2C2).2).finalData
      = some [rowEnrichedW, rowEnrichedW, initRow bulkW, initRow bulkW]
  ∧ (initRow bulkW).entityid = none ∧ (initRow bulkW).il = none
  ∧ stepFn oW 2 3 3 (resumeInit ((runStep3Stopped oW 2 1 s2C2).2))
      = some (⟨some [rowEnrichedW, rowEnrichedW, initRow bulkW, initRow bulkW],
          some (), some (), 3⟩, true) := by
  refine ⟨by decide, by decide, by decide, by decide, by decide, by decide⟩

end Partners8
